import Mathlib

/-!
# Rarity scoring and collection statistics of `src/services/alchemy.js`

A shallow embedding of the rarity code of `getNFTMetadata` and of
`getCollectionStats`.

Conventions of the embedding:
* a JavaScript number is an exact rational (`ℚ`); `null` / `undefined` is `none`;
* the product `rawTraitScore * marketMultiplier` of line 263 is a product of IEEE 754
  doubles: `scoreLocalsWith` and `getNFTMetadataWith` take it as a parameter `times`,
  and `scoreLocals` and `getNFTMetadata` are their instances at the exact product;
* `Math.log10` is a parameter `log10 : ℚ → ℚ` of every definition that calls it, and so
  are the built-in conversions between numbers and strings (`numberToString`,
  `stringToNumber`);
* a plain JavaScript object with string keys is a list of its own properties in
  insertion order (`JSObject`), read with `JSObject.get` and written with
  `JSObject.set`;
* module state (`collectionStatsCache`) and the record of upstream requests are
  threaded explicitly through `World`;
* the counts of an attribute summary are numbers in `AttributeSummary` and values of
  any primitive type in `RawAttributeSummary`.
-/

namespace Alchemy

/-! ## JavaScript helpers -/

/-- `Math.round`: the nearest integer, a tie going towards plus infinity. -/
def mathRound (x : ℚ) : ℚ := ((⌊x + 1 / 2⌋ : ℤ) : ℚ)

/-- Conversion of a possibly-null value to a number, as done by `Math.round(v)`:
`null` becomes `0`. -/
def toNumber : Option ℚ → ℚ
  | none => 0
  | some x => x

/-! ## Scoring part of `getNFTMetadata` (lines 218-266 and 284-285) -/

/-- A processed trait, the object `{ trait_type, value, rarity }` built at lines 202-206. -/
structure Trait where
  trait_type : String
  value : String
  rarity : Option ℚ
  deriving DecidableEq

/-- The filter of lines 224-226: `t.rarity !== null && t.rarity > 0`. -/
def validTraits (traits : List Trait) : List Trait :=
  traits.filter (fun t =>
    match t.rarity with
    | none => false
    | some r => decide (r > 0))

/-- The reduction of lines 230-233: `validTraits.reduce((sum, t) => sum + 1 / t.rarity, 0)`.
Every trait reaching it passed the filter, so the `null` branch (where JavaScript
would coerce `null` to `0`) is never taken on the output of `validTraits`. -/
def harmonicSum (valid : List Trait) : ℚ :=
  valid.foldl (fun sum t => sum + 1 / toNumber t.rarity) 0

/-- Lines 218-238: the pair `(hasValidTraitRarity, rawTraitScore)` after the first block. -/
def traitScore (log10 : ℚ → ℚ) (traits : List Trait) : Bool × Option ℚ :=
  if traits.length > 0 then
    let valid := validTraits traits
    if valid.length > 0 then
      let harmonicMean := (valid.length : ℚ) / harmonicSum valid
      let logRarity := log10 (max 0.1 harmonicMean)
      (true, some (max 0 (min 100 (85 - logRarity * 35))))
    else (false, none)
  else (false, none)

/-- Lines 242-257: the pair `(marketMultiplier, maxAllowedScore)` chosen by the floor price. -/
def marketContext (floorPriceETH : ℚ) : ℚ × ℚ :=
  if floorPriceETH < 0.5 then (0.45, 45)
  else if floorPriceETH < 1 then (0.55, 55)
  else if floorPriceETH < 3 then (0.7, 70)
  else if floorPriceETH < 10 then (0.85, 85)
  else (1.0, 100)

/-- The local variables of `getNFTMetadata` after line 266. -/
structure ScoreLocals where
  hasValidTraitRarity : Bool
  rawTraitScore : Option ℚ
  rarityScore : Option ℚ
  rarityPercentile : Option ℚ
  deriving DecidableEq

/-- Lines 218-266, the product of line 263 taken exactly. The program multiplies doubles
there: `scoreLocalsWith` below has that product as a parameter, and this definition is
its instance at the exact product (`scoreLocalsWith_exact`). -/
def scoreLocals (log10 : ℚ → ℚ) (traits : List Trait) (floorPriceETH : ℚ) : ScoreLocals :=
  let first := traitScore log10 traits
  match first.1, first.2 with
  | true, some rawTraitScore =>
    let ctx := marketContext floorPriceETH
    let rarityScore := min ctx.2 (mathRound (rawTraitScore * ctx.1))
    { hasValidTraitRarity := true, rawTraitScore := some rawTraitScore,
      rarityScore := some rarityScore, rarityPercentile := some rarityScore }
  | hasValid, raw =>
    { hasValidTraitRarity := hasValid, rawTraitScore := raw,
      rarityScore := none, rarityPercentile := none }

/-- The two rarity fields of the object returned by `getNFTMetadata` (lines 284-285). -/
structure RarityFields where
  rarityScore : Option ℚ
  rarityPercentile : Option ℚ
  deriving DecidableEq

/-- Lines 284-285: `rarityScore: Math.round(rarityScore), rarityPercentile: rarityPercentile`,
on the locals of `scoreLocals`. -/
def getNFTMetadata (log10 : ℚ → ℚ) (traits : List Trait) (floorPriceETH : ℚ) : RarityFields :=
  let locals := scoreLocals log10 traits floorPriceETH
  { rarityScore := some (mathRound (toNumber locals.rarityScore)),
    rarityPercentile := locals.rarityPercentile }

/-! ## The market step with the product of line 263 on doubles

`rawTraitScore * marketMultiplier` (line 263) is computed on IEEE 754 doubles and can
differ from the exact product: `85 * 0.7` is `59.49999999999999` on doubles, which
`Math.round` sends to 59, and `59.5` exactly, which `mathRound` sends to 60. The
definitions of this section take the multiplication of line 263 as a parameter
`times : ℚ → ℚ → ℚ`, the way `Math.log10` is taken. -/

/-- Lines 241-266 on the locals `hasValidTraitRarity` and `rawTraitScore` left by the first
block: the pair `(rarityScore, rarityPercentile)` after line 266. `times` is the
multiplication of line 263. -/
def marketStep (times : ℚ → ℚ → ℚ) (hasValidTraitRarity : Bool) (rawTraitScore : Option ℚ)
    (floorPriceETH : ℚ) : Option ℚ × Option ℚ :=
  match hasValidTraitRarity, rawTraitScore with
  | true, some raw =>
    let ctx := marketContext floorPriceETH
    let rarityScore := min ctx.2 (mathRound (times raw ctx.1))
    (some rarityScore, some rarityScore)
  | _, _ => (none, none)

/-- Lines 284-285 on the locals `rarityScore` and `rarityPercentile`:
`rarityScore: Math.round(rarityScore), rarityPercentile: rarityPercentile`. -/
def rarityFields (rarityScore rarityPercentile : Option ℚ) : RarityFields :=
  { rarityScore := some (mathRound (toNumber rarityScore)),
    rarityPercentile := rarityPercentile }

/-- Lines 218-266 with the multiplication of line 263 as the parameter `times`. -/
def scoreLocalsWith (times : ℚ → ℚ → ℚ) (log10 : ℚ → ℚ) (traits : List Trait)
    (floorPriceETH : ℚ) : ScoreLocals :=
  let first := traitScore log10 traits
  let step := marketStep times first.1 first.2 floorPriceETH
  { hasValidTraitRarity := first.1, rawTraitScore := first.2,
    rarityScore := step.1, rarityPercentile := step.2 }

/-- Lines 218-266 and 284-285 with the multiplication of line 263 as the parameter
`times`. -/
def getNFTMetadataWith (times : ℚ → ℚ → ℚ) (log10 : ℚ → ℚ) (traits : List Trait)
    (floorPriceETH : ℚ) : RarityFields :=
  let locals := scoreLocalsWith times log10 traits floorPriceETH
  rarityFields locals.rarityScore locals.rarityPercentile

/-! ## Plain objects -/

/-- A plain JavaScript object with string keys: its own properties, in insertion order. -/
structure JSObject (α : Type) where
  props : List (String × α)
  deriving DecidableEq

namespace JSObject

variable {α σ : Type}

/-- The object literal `{}`. -/
def empty : JSObject α := ⟨[]⟩

/-- Property read on a property list: `none` is `undefined`. -/
def lookup : List (String × α) → String → Option α
  | [], _ => none
  | (k, v) :: rest, key => if k = key then some v else lookup rest key

/-- Property write on a property list: an existing key keeps its place, a new key
goes to the end. -/
def assign : List (String × α) → String → α → List (String × α)
  | [], key, v => [(key, v)]
  | (k, w) :: rest, key, v => if k = key then (k, v) :: rest else (k, w) :: assign rest key v

/-- The read `o[key]`. -/
def get (o : JSObject α) (key : String) : Option α := lookup o.props key

/-- The write `o[key] = v`. -/
def set (o : JSObject α) (key : String) (v : α) : JSObject α := ⟨assign o.props key v⟩

/-- `Object.keys(o)`. -/
def keys (o : JSObject α) : List String := o.props.map Prod.fst

/-- The loop `Object.keys(o).forEach((key) => { ... o[key] ... })` run on an
accumulated state: `body` receives the key and the value `o[key]`. A key listed by
`Object.keys` is an own property, so the read never gives `undefined`. -/
def forEachKey (o : JSObject α) (init : σ) (body : σ → String → α → σ) : σ :=
  o.keys.foldl (fun acc key =>
    match o.get key with
    | none => acc
    | some v => body acc key v) init

end JSObject

/-! ## `getCollectionStats` (lines 346-382) -/

/-- The entry `{ count, percentage }` stored for one trait value (lines 367-370). -/
structure TraitStat where
  count : ℚ
  percentage : ℚ
  deriving DecidableEq

/-- The object `stats`: trait type, then trait value, then `{ count, percentage }`. -/
abbrev CollectionStats := JSObject (JSObject TraitStat)

/-- The value the promise of `alchemy.nft.summarizeNftAttributes` resolves to:
`summary.summary` (trait type, then value, then count; `none` when absent) and
`summary.totalSupply` (`none` when absent). -/
structure AttributeSummary where
  summary : Option (JSObject (JSObject ℚ))
  totalSupply : Option ℚ
  deriving DecidableEq

/-- Line 360: `const totalSupply = summary.totalSupply || 10000`. The left operand is
falsy when it is absent or is the number 0. -/
def totalSupply (summary : AttributeSummary) : ℚ :=
  match summary.totalSupply with
  | none => 10000
  | some n => if n = 0 then 10000 else n

/-- Lines 365-371 for one trait type: the object `stats[traitType]` once the inner
loop has run. -/
def traitTypeStats (values : JSObject ℚ) (totalSupply : ℚ) : JSObject TraitStat :=
  values.forEachKey JSObject.empty (fun acc value count =>
    acc.set value { count := count, percentage := count / totalSupply * 100 })

/-- Lines 359-373: the object `stats` built from the summary. -/
def stats (summary : AttributeSummary) : CollectionStats :=
  let totalSupply := totalSupply summary
  match summary.summary with
  | none => JSObject.empty
  | some s =>
    s.forEachKey JSObject.empty (fun acc traitType values =>
      acc.set traitType (traitTypeStats values totalSupply))

/-- The state `getCollectionStats` runs in: the module-level `collectionStatsCache`
and the addresses for which `alchemy.nft.summarizeNftAttributes` has been invoked,
oldest first. -/
structure World where
  collectionStatsCache : JSObject CollectionStats
  upstreamCalls : List String
  deriving DecidableEq

/-- How a call ends: it returns a value to its caller or throws. -/
inductive Completion (α : Type) where
  | returned (value : α)
  | threw (message : String)
  deriving DecidableEq

/-- Where a call of `getCollectionStats` stands after its synchronous prefix
(lines 349-356): it has returned the cached stats, or it is suspended at the `await`. -/
inductive Entered where
  | hit (stats : CollectionStats)
  | awaiting
  deriving DecidableEq

/-- Lines 349-356 up to the `await`: return the cached stats when the cache holds
an entry (a stats object is always truthy), else invoke the upstream. -/
def enter (w : World) (contractAddress : String) : Entered × World :=
  match w.collectionStatsCache.get contractAddress with
  | some cachedStats => (Entered.hit cachedStats, w)
  | none => (Entered.awaiting, { w with upstreamCalls := w.upstreamCalls ++ [contractAddress] })

/-- Lines 356-381 from the `await` on: `settled` is how the upstream promise settled
(`Except.error` for a rejection). A rejection is caught at line 378, logged, and the
call returns `null`. -/
def resume (w : World) (contractAddress : String) (settled : Except String AttributeSummary) :
    Completion (Option CollectionStats) × World :=
  match settled with
  | Except.error _ => (Completion.returned none, w)
  | Except.ok summary =>
    let stats := stats summary
    (Completion.returned (some stats),
      { w with collectionStatsCache := w.collectionStatsCache.set contractAddress stats })

/-- The rest of a call after `enter`. -/
def finish (w : World) (contractAddress : String) (e : Entered)
    (settled : Except String AttributeSummary) : Completion (Option CollectionStats) × World :=
  match e with
  | Entered.hit cachedStats => (Completion.returned (some cachedStats), w)
  | Entered.awaiting => resume w contractAddress settled

/-- One call of `getCollectionStats` run to completion with no other call in between;
`summarizeNftAttributes` gives how the upstream promise settles for an address. -/
def getCollectionStats (summarizeNftAttributes : String → Except String AttributeSummary)
    (w : World) (contractAddress : String) : Completion (Option CollectionStats) × World :=
  let entered := enter w contractAddress
  finish entered.2 contractAddress entered.1 (summarizeNftAttributes contractAddress)

/-- A sequence of calls, one after the other, each with its own address and its own
upstream behaviour. -/
def runCalls (w : World) :
    List (String × (String → Except String AttributeSummary)) → World
  | [] => w
  | (contractAddress, upstream) :: rest =>
    runCalls (getCollectionStats upstream w contractAddress).2 rest

/-- The synchronous prefixes of `k` calls for the same address, run one after the
other before any of the calls continues. -/
def enterAll (w : World) (contractAddress : String) : Nat → List Entered × World
  | 0 => ([], w)
  | k + 1 =>
    let first := enter w contractAddress
    let others := enterAll first.2 contractAddress k
    (first.1 :: others.1, others.2)

/-- The continuations of suspended calls, run in the order in which their upstream
promises settle. -/
def finishAll (w : World) (contractAddress : String) :
    List (Entered × Except String AttributeSummary) →
      List (Completion (Option CollectionStats)) × World
  | [] => ([], w)
  | (e, settled) :: rest =>
    let first := finish w contractAddress e settled
    let others := finishAll first.2 contractAddress rest
    (first.1 :: others.1, others.2)

/-- As many calls for one address as `settled` has entries, all in flight together:
every call runs its synchronous prefix before any of them continues, then the
continuations run as the upstream promises settle (`settled`, in that order). -/
def concurrentCalls (w : World) (contractAddress : String)
    (settled : List (Except String AttributeSummary)) :
    List (Completion (Option CollectionStats)) × World :=
  let entered := enterAll w contractAddress settled.length
  finishAll entered.2 contractAddress (entered.1.zip settled)

/-! ## JavaScript values -/

/-- A JavaScript primitive value, as found in a field of NFT metadata or of an
upstream response. -/
inductive JSValue where
  | undefined
  | null
  | bool (b : Bool)
  | number (q : ℚ)
  | nan
  | string (s : String)
  deriving DecidableEq

namespace JSValue

/-- Truthiness: `undefined`, `null`, `false`, `0`, `NaN` and `""` are falsy. -/
def truthy : JSValue → Bool
  | undefined => false
  | null => false
  | bool b => b
  | number q => decide (q ≠ 0)
  | nan => false
  | string s => decide (s ≠ "")

/-- The expression `a || b`. -/
def orElse (a b : JSValue) : JSValue := if a.truthy then a else b

/-- The conversion `String(v)`; `numberToString` is the built-in conversion of a
number to its decimal string. -/
def toStr (numberToString : ℚ → String) : JSValue → String
  | undefined => "undefined"
  | null => "null"
  | bool true => "true"
  | bool false => "false"
  | number q => numberToString q
  | nan => "NaN"
  | string s => s

/-- The conversion to a number made by a relational comparison with a number, `none`
being `NaN`; `stringToNumber` is the built-in conversion of a string. -/
def toNum (stringToNumber : String → Option ℚ) : JSValue → Option ℚ
  | undefined => none
  | null => some 0
  | bool true => some 1
  | bool false => some 0
  | number q => some q
  | nan => none
  | string s => stringToNumber s

end JSValue

/-- The expression `parseFloat(x.toFixed(2))` of line 205: `toFixed` rounds the
magnitude to the nearest multiple of 0.01, a tie going to the larger magnitude, and
keeps the sign. -/
def toFixed2 (x : ℚ) : ℚ :=
  if x < 0 then -(((⌊-x * 100 + 1 / 2⌋ : ℤ) : ℚ) / 100)
  else ((⌊x * 100 + 1 / 2⌋ : ℤ) : ℚ) / 100

/-! ## Trait processing part of `getNFTMetadata` (lines 188-207) -/

/-- An element of `rawTraits`, an attribute of the token metadata: `trait_type` and
`name` are strings (`none` when the field is absent or `null`), `value` is any
primitive value. -/
structure RawTrait where
  trait_type : Option String
  name : Option String
  value : JSValue
  deriving DecidableEq

/-- The left operand of `s || ...` for a string field: it is taken when the field is
present and not the empty string. -/
def truthyString : Option String → Option String
  | none => none
  | some s => if s = "" then none else some s

/-- Line 189: `trait.trait_type || trait.name || "Property"`. -/
def traitType (trait : RawTrait) : String :=
  match truthyString trait.trait_type with
  | some s => s
  | none =>
    match truthyString trait.name with
    | some s => s
    | none => "Property"

/-- Line 190: `String(trait.value || "")`. -/
def value (numberToString : ℚ → String) (trait : RawTrait) : String :=
  (trait.value.orElse (JSValue.string "")).toStr numberToString

/-- Lines 193-200: the variable `rarity` after the lookup in the collection stats. A
stats object and an entry `{ count, percentage }` are objects, hence truthy. -/
def rarity (collectionStats : Option CollectionStats) (traitType value : String) : Option ℚ :=
  match collectionStats with
  | none => none
  | some st =>
    match st.get traitType with
    | none => none
    | some values =>
      match values.get value with
      | none => none
      | some entry => some entry.percentage

/-- Lines 188-206: the callback of `rawTraits.map`. Line 205 is
`rarity ? parseFloat(rarity.toFixed(2)) : null`, where the number 0 is falsy. -/
def processTrait (numberToString : ℚ → String) (collectionStats : Option CollectionStats)
    (trait : RawTrait) : Trait :=
  let traitType := traitType trait
  let value := value numberToString trait
  { trait_type := traitType,
    value := value,
    rarity :=
      match rarity collectionStats traitType value with
      | none => none
      | some r => if r = 0 then none else some (toFixed2 r) }

/-- Lines 188-207: the constant `traits`. -/
def processTraits (numberToString : ℚ → String) (collectionStats : Option CollectionStats)
    (rawTraits : List RawTrait) : List Trait :=
  rawTraits.map (processTrait numberToString collectionStats)

/-- Line 122 of `getNFTsForOwner`: `trait_type: attr.trait_type || "Property"`. -/
def ownedTraitType (attr : RawTrait) : String :=
  match truthyString attr.trait_type with
  | some s => s
  | none => "Property"

/-! ## The floor price (lines 212-213 and 389-406) -/

/-- Lines 389-406: the field `openSea` of the object `getFloorPrice` returns.
`response` is the value of `floorPrice.openSea?.floorPrice` when the upstream request
succeeds (`JSValue.undefined` when a link of the chain is absent) and `Except.error`
when it fails; line 394 is `... || 0` and the `catch` returns `openSea: 0`. -/
def getFloorPrice (response : Except String JSValue) : JSValue :=
  match response with
  | Except.error _ => JSValue.number 0
  | Except.ok floorPrice => floorPrice.orElse (JSValue.number 0)

/-- Line 213: `const floorPriceETH = floorData.openSea || 0`. -/
def floorPriceETH (openSea : JSValue) : JSValue := openSea.orElse (JSValue.number 0)

/-- Lines 242-257 for a floor price of any type. Each test `floorPriceETH < c`
converts the left operand to a number and is false when that is `NaN`, so a value
converting to `NaN` reaches the defaults of lines 242-243. -/
def marketContextOf (stringToNumber : String → Option ℚ) (floorPriceETH : JSValue) : ℚ × ℚ :=
  match floorPriceETH.toNum stringToNumber with
  | some f => marketContext f
  | none => (1.0, 100)

/-! ## `getCollectionStats` on a summary whose counts are of any primitive type -/

/-- The entry `{ count, percentage }` of lines 367-370 when the count is any
primitive value: the count is stored as it is, and the percentage is a number or
`NaN` (`none`). -/
structure RawTraitStat where
  count : JSValue
  percentage : Option ℚ
  deriving DecidableEq

/-- The object `stats` when the counts are of any primitive type. -/
abbrev RawCollectionStats := JSObject (JSObject RawTraitStat)

/-- The value the promise of `alchemy.nft.summarizeNftAttributes` resolves to, when
nothing is assumed of the type of the counts. -/
structure RawAttributeSummary where
  summary : Option (JSObject (JSObject JSValue))
  totalSupply : Option ℚ
  deriving DecidableEq

/-- Line 360 on a raw summary: `const totalSupply = summary.totalSupply || 10000`. -/
def rawTotalSupply (summary : RawAttributeSummary) : ℚ :=
  match summary.totalSupply with
  | none => 10000
  | some n => if n = 0 then 10000 else n

/-- Line 369: `(count / totalSupply) * 100`. The division converts the count to a
number; when that is `NaN` the result is `NaN`. The divisor is never 0. -/
def rawPercentage (stringToNumber : String → Option ℚ) (count : JSValue) (totalSupply : ℚ) :
    Option ℚ :=
  match count.toNum stringToNumber with
  | none => none
  | some c => some (c / totalSupply * 100)

/-- Lines 365-371 for one trait type of a raw summary. -/
def rawTraitTypeStats (stringToNumber : String → Option ℚ) (values : JSObject JSValue)
    (totalSupply : ℚ) : JSObject RawTraitStat :=
  values.forEachKey JSObject.empty (fun acc value count =>
    acc.set value { count := count, percentage := rawPercentage stringToNumber count totalSupply })

/-- Lines 359-373 on a raw summary: no statement of the loop inspects the type of a
count. -/
def rawStats (stringToNumber : String → Option ℚ) (summary : RawAttributeSummary) :
    RawCollectionStats :=
  let totalSupply := rawTotalSupply summary
  match summary.summary with
  | none => JSObject.empty
  | some s =>
    s.forEachKey JSObject.empty (fun acc traitType values =>
      acc.set traitType (rawTraitTypeStats stringToNumber values totalSupply))

/-- The state of `getCollectionStats` when the cached stats come from raw summaries. -/
structure RawWorld where
  collectionStatsCache : JSObject RawCollectionStats
  upstreamCalls : List String
  deriving DecidableEq

/-- Lines 348-382 on raw summaries, one call run to completion. -/
def getCollectionStatsRaw (stringToNumber : String → Option ℚ)
    (summarizeNftAttributes : String → Except String RawAttributeSummary)
    (w : RawWorld) (contractAddress : String) :
    Completion (Option RawCollectionStats) × RawWorld :=
  match w.collectionStatsCache.get contractAddress with
  | some cachedStats => (Completion.returned (some cachedStats), w)
  | none =>
    match summarizeNftAttributes contractAddress with
    | Except.error _ =>
      (Completion.returned none,
        { w with upstreamCalls := w.upstreamCalls ++ [contractAddress] })
    | Except.ok summary =>
      let stats := rawStats stringToNumber summary
      (Completion.returned (some stats),
        { collectionStatsCache := w.collectionStatsCache.set contractAddress stats,
          upstreamCalls := w.upstreamCalls ++ [contractAddress] })

/-! ## Trait processing as a step on the program state -/

/-- The state lines 188-207 can reach: the module state and the constant
`collectionStats` of line 185. -/
structure ResolverState where
  world : World
  collectionStats : Option CollectionStats
  deriving DecidableEq

/-- One run of the callback of lines 188-207 in a state: the callback reads
`collectionStats` (lines 195-199) and assigns only to its own locals. -/
def processTraitStep (numberToString : ℚ → String) (s : ResolverState) (trait : RawTrait) :
    Trait × ResolverState :=
  (processTrait numberToString s.collectionStats trait, s)

/-- The call `rawTraits.map(...)` of line 188: the callback runs on the elements in
order, each run starting in the state the previous one left. -/
def processTraitsRun (numberToString : ℚ → String) (s : ResolverState) :
    List RawTrait → List Trait × ResolverState
  | [] => ([], s)
  | trait :: rest =>
    let first := processTraitStep numberToString s trait
    let others := processTraitsRun numberToString first.2 rest
    (first.1 :: others.1, others.2)

/-! ## The formulas of the specification -/

/-- The rarities of the valid traits of a list, in order: those that are not
`null` and are strictly positive. -/
def specValidRarities (traits : List Trait) : List ℚ :=
  traits.filterMap (fun t => t.rarity.bind (fun r => if 0 < r then some r else none))

/-- The harmonic mean `n / Σ (1 / r_i)` of a list of `n` rarities. -/
def specHarmonicMean (rs : List ℚ) : ℚ :=
  (rs.length : ℚ) / (rs.map (fun r => 1 / r)).sum

/-- The function `clamp(x, lo, hi)`. -/
def specClamp (x lo hi : ℚ) : ℚ :=
  if x < lo then lo else if hi < x then hi else x

/-- The count a summary holds for a `(traitType, value)` pair, `none` when it holds
no such pair. -/
def summaryCount (summary : AttributeSummary) (traitType value : String) : Option ℚ :=
  (summary.summary.bind (fun s => s.get traitType)).bind (fun values => values.get value)

/-- The entry the stats hold for a `(traitType, value)` pair, `none` when they hold
no such pair. -/
def statsEntry (stats : CollectionStats) (traitType value : String) : Option TraitStat :=
  (stats.get traitType).bind (fun values => values.get value)

/-- The percentage the collection stats store for a raw trait, under the trait type
and value string of the processed trait: `none` when the stats are `null` or hold no
entry for the pair. -/
def storedPercentage (numberToString : ℚ → String) (collectionStats : Option CollectionStats)
    (trait : RawTrait) : Option ℚ :=
  collectionStats.bind (fun st =>
    (statsEntry st (traitType trait) (value numberToString trait)).map
      (fun entry => entry.percentage))

/-- The scoring formula (steps 1 to 4 of the score normalizer) fed with a list of
rarities, `none` being an unknown rarity: no score when no rarity is known and
positive, else `clamp(85 - 35 * log10(max(0.1, H)), 0, 100)` for the harmonic mean `H`
of the known positive rarities. -/
def specRawTraitScore (log10 : ℚ → ℚ) (rarities : List (Option ℚ)) : Option ℚ :=
  match rarities.filterMap (fun o => o.bind (fun r => if 0 < r then some r else none)) with
  | [] => none
  | r :: rs => some (specClamp (85 - 35 * log10 (max 0.1 (specHarmonicMean (r :: rs)))) 0 100)

/-- Validity of a rarity for the scorer: it is known and strictly positive. -/
def specValid (r : Option ℚ) : Prop := ∃ q, r = some q ∧ 0 < q

/-- The count a raw summary holds for a `(traitType, value)` pair, `none` when it holds
no such pair. -/
def rawSummaryCount (summary : RawAttributeSummary) (traitType value : String) : Option JSValue :=
  (summary.summary.bind (fun s => s.get traitType)).bind (fun values => values.get value)

/-- The entry raw stats hold for a `(traitType, value)` pair, `none` when they hold no
such pair. -/
def rawStatsEntry (stats : RawCollectionStats) (traitType value : String) : Option RawTraitStat :=
  (stats.get traitType).bind (fun values => values.get value)

/-! ## Theorems -/

/-! ### The raw trait score -/

theorem foldl_harmonic (l : List Trait) (a : ℚ) :
    l.foldl (fun sum t => sum + 1 / toNumber t.rarity) a
      = a + (l.map (fun t => 1 / toNumber t.rarity)).sum := by
  induction l generalizing a with
  | nil => simp
  | cons t ts ih =>
    simp only [List.foldl_cons, List.map_cons, List.sum_cons]
    rw [ih, add_assoc]

theorem validTraits_rarities (traits : List Trait) :
    (validTraits traits).map (fun t => toNumber t.rarity) = specValidRarities traits := by
  induction traits with
  | nil => rfl
  | cons t ts ih =>
    unfold validTraits specValidRarities at *
    rcases h : t.rarity with _ | r
    · simpa [List.filter_cons, List.filterMap_cons, h] using ih
    · have hn : toNumber (some r) = r := rfl
      by_cases hr : 0 < r
      · simpa [List.filter_cons, List.filterMap_cons, h, hr, hn] using ih
      · simpa [List.filter_cons, List.filterMap_cons, h, hr] using ih

theorem validTraits_length (traits : List Trait) :
    (validTraits traits).length = (specValidRarities traits).length := by
  rw [← validTraits_rarities, List.length_map]

theorem harmonicSum_validTraits (traits : List Trait) :
    harmonicSum (validTraits traits) = ((specValidRarities traits).map (fun r => 1 / r)).sum := by
  unfold harmonicSum
  rw [foldl_harmonic, ← validTraits_rarities, List.map_map, zero_add]
  rfl

theorem validTraits_ne_nil (traits : List Trait)
    (h : ∃ t ∈ traits, ∃ r, t.rarity = some r ∧ 0 < r) : 0 < (validTraits traits).length := by
  obtain ⟨t, ht, r, hr, hpos⟩ := h
  have hmem : t ∈ validTraits traits := by
    unfold validTraits
    simp [List.mem_filter, ht, hr, hpos]
  exact List.length_pos_of_mem hmem

theorem max_min_eq_specClamp (x : ℚ) : max 0 (min 100 x) = specClamp x 0 100 := by
  unfold specClamp
  split_ifs with h1 h2
  · rw [min_eq_right (by linarith), max_eq_left (by linarith)]
  · rw [min_eq_left (by linarith), max_eq_right (by norm_num)]
  · rw [min_eq_right (by linarith), max_eq_right (by linarith)]

/-- Claim C1: for every trait list with at least one valid trait (rarity not null and
greater than 0), the raw trait score computed by the scorer of `getNFTMetadata` is
`clamp(85 - 35 * log10(max(0.1, H)), 0, 100)`, where `H = n / Σ (1 / rarity_i)` is the
harmonic mean of the `n` valid trait rarities. -/
theorem rawTraitScore_eq_clamp_harmonic (log10 : ℚ → ℚ) (traits : List Trait)
    (h : ∃ t ∈ traits, ∃ r, t.rarity = some r ∧ 0 < r) :
    (traitScore log10 traits).2
      = some (specClamp (85 - 35 * log10 (max 0.1 (specHarmonicMean (specValidRarities traits))))
          0 100) := by
  have hv := validTraits_ne_nil traits h
  have ht : 0 < traits.length := by
    obtain ⟨t, ht, _⟩ := h
    exact List.length_pos_of_mem ht
  unfold traitScore
  simp only [gt_iff_lt, ht, hv, if_true]
  rw [max_min_eq_specClamp, harmonicSum_validTraits, validTraits_length]
  unfold specHarmonicMean
  rw [mul_comm]

/-- Claim C1 at the trait list `[{rarity: 2}, {rarity: null}]`. -/
theorem rawTraitScore_eq_clamp_harmonic_witness :
    (∃ t ∈ [Trait.mk "Fur" "Gold" (some 2), Trait.mk "Hat" "None" none],
        ∃ r, t.rarity = some r ∧ 0 < r) ∧
      (traitScore (fun x => x - 1) [Trait.mk "Fur" "Gold" (some 2), Trait.mk "Hat" "None" none]).2
        = some (specClamp (85 - 35 * (fun x : ℚ => x - 1) (max 0.1 (specHarmonicMean
            (specValidRarities [Trait.mk "Fur" "Gold" (some 2), Trait.mk "Hat" "None" none]))))
          0 100) :=
  ⟨⟨Trait.mk "Fur" "Gold" (some 2), by simp, 2, rfl, by norm_num⟩,
    rawTraitScore_eq_clamp_harmonic _ _ ⟨Trait.mk "Fur" "Gold" (some 2), by simp, 2, rfl, by norm_num⟩⟩


/-- Claim C2: for every numeric floor price the scorer selects the (multiplier, cap) pair
of the table with lower-closed, upper-open bands: below 0.5 it is (0.45, 45), in
[0.5, 1) it is (0.55, 55), in [1, 3) it is (0.70, 70), in [3, 10) it is (0.85, 85),
from 10 on it is (1.00, 100). -/
theorem marketContext_bands (f : ℚ) :
    (f < 0.5 → marketContext f = (0.45, 45)) ∧
    (0.5 ≤ f → f < 1 → marketContext f = (0.55, 55)) ∧
    (1 ≤ f → f < 3 → marketContext f = (0.70, 70)) ∧
    (3 ≤ f → f < 10 → marketContext f = (0.85, 85)) ∧
    (10 ≤ f → marketContext f = (1.00, 100)) := by
  refine ⟨?_, ?_, ?_, ?_, ?_⟩
  · intro h
    simp [marketContext, h]
  · intro h1 h2
    have : ¬ f < 0.5 := not_lt.mpr h1
    simp [marketContext, this, h2]
  · intro h1 h2
    have a1 : ¬ f < 0.5 := by norm_num at *; linarith
    have a2 : ¬ f < 1 := not_lt.mpr h1
    simp only [marketContext, a1, a2, h2, if_true, if_false]
    norm_num
  · intro h1 h2
    have a1 : ¬ f < 0.5 := by norm_num at *; linarith
    have a2 : ¬ f < 1 := by norm_num at *; linarith
    have a3 : ¬ f < 3 := not_lt.mpr h1
    simp [marketContext, a1, a2, a3, h2]
  · intro h1
    have a1 : ¬ f < 0.5 := by norm_num at *; linarith
    have a2 : ¬ f < 1 := by norm_num at *; linarith
    have a3 : ¬ f < 3 := by norm_num at *; linarith
    have a4 : ¬ f < 10 := not_lt.mpr h1
    simp only [marketContext, a1, a2, a3, a4, if_false]
    norm_num

theorem mathRound_intCast (n : ℤ) : mathRound (n : ℚ) = (n : ℚ) := by
  unfold mathRound
  have : ⌊(n : ℚ) + 1 / 2⌋ = n := by
    rw [Int.floor_eq_iff]
    constructor <;> norm_num
  rw [this]

theorem mathRound_isInt (x : ℚ) : ∃ n : ℤ, mathRound x = (n : ℚ) := ⟨⌊x + 1 / 2⌋, rfl⟩

theorem marketContext_cap_isInt (f : ℚ) : ∃ n : ℤ, (marketContext f).2 = (n : ℚ) := by
  unfold marketContext
  split_ifs
  · exact ⟨45, by norm_num⟩
  · exact ⟨55, by norm_num⟩
  · exact ⟨70, by norm_num⟩
  · exact ⟨85, by norm_num⟩
  · exact ⟨100, by norm_num⟩

theorem mathRound_min_cap (f x : ℚ) :
    mathRound (min (marketContext f).2 (mathRound x)) = min (marketContext f).2 (mathRound x) := by
  obtain ⟨c, hc⟩ := marketContext_cap_isInt f
  obtain ⟨n, hn⟩ := mathRound_isInt x
  rw [hc, hn]
  rcases le_total (c : ℚ) (n : ℚ) with h | h
  · rw [min_eq_left h, mathRound_intCast]
  · rw [min_eq_right h, mathRound_intCast]

theorem scoreLocals_of_raw (log10 : ℚ → ℚ) (traits : List Trait) (f raw : ℚ)
    (h : traitScore log10 traits = (true, some raw)) :
    scoreLocals log10 traits f =
      { hasValidTraitRarity := true, rawTraitScore := some raw,
        rarityScore := some (min (marketContext f).2 (mathRound (raw * (marketContext f).1))),
        rarityPercentile := some (min (marketContext f).2 (mathRound (raw * (marketContext f).1))) } := by
  unfold scoreLocals
  simp only [h]

theorem traitScore_of_valid (log10 : ℚ → ℚ) (traits : List Trait)
    (h : ∃ t ∈ traits, ∃ r, t.rarity = some r ∧ 0 < r) :
    ∃ raw, traitScore log10 traits = (true, some raw) := by
  have hv := validTraits_ne_nil traits h
  have ht : 0 < traits.length := by
    obtain ⟨t, ht, _⟩ := h
    exact List.length_pos_of_mem ht
  unfold traitScore
  simp only [gt_iff_lt, ht, hv, if_true]
  exact ⟨_, rfl⟩

/-! ### The market step on doubles -/

theorem marketStep_of_raw (times : ℚ → ℚ → ℚ) (raw f : ℚ) :
    marketStep times true (some raw) f
      = (some (min (marketContext f).2 (mathRound (times raw (marketContext f).1))),
         some (min (marketContext f).2 (mathRound (times raw (marketContext f).1)))) := rfl

theorem rarityFields_marketStep (times : ℚ → ℚ → ℚ) (raw f : ℚ) :
    rarityFields (marketStep times true (some raw) f).1 (marketStep times true (some raw) f).2
      = { rarityScore := some (min (marketContext f).2 (mathRound (times raw (marketContext f).1))),
          rarityPercentile :=
            some (min (marketContext f).2 (mathRound (times raw (marketContext f).1))) } := by
  simp only [marketStep_of_raw, rarityFields, toNumber, mathRound_min_cap]

theorem getNFTMetadataWith_of_raw (times : ℚ → ℚ → ℚ) (log10 : ℚ → ℚ) (traits : List Trait)
    (f raw : ℚ) (h : traitScore log10 traits = (true, some raw)) :
    getNFTMetadataWith times log10 traits f
      = { rarityScore := some (min (marketContext f).2 (mathRound (times raw (marketContext f).1))),
          rarityPercentile :=
            some (min (marketContext f).2 (mathRound (times raw (marketContext f).1))) } := by
  unfold getNFTMetadataWith scoreLocalsWith
  simp only [h]
  exact rarityFields_marketStep times raw f

theorem scoreLocalsWith_exact (log10 : ℚ → ℚ) (traits : List Trait) (f : ℚ) :
    scoreLocalsWith (fun a b => a * b) log10 traits f = scoreLocals log10 traits f := by
  unfold scoreLocalsWith scoreLocals marketStep
  rcases h : traitScore log10 traits with ⟨b, o⟩
  cases b <;> cases o <;> simp

theorem getNFTMetadataWith_exact (log10 : ℚ → ℚ) (traits : List Trait) (f : ℚ) :
    getNFTMetadataWith (fun a b => a * b) log10 traits f = getNFTMetadata log10 traits f := by
  unfold getNFTMetadataWith getNFTMetadata rarityFields
  rw [scoreLocalsWith_exact]

/-- The item with the single trait of rarity 1 at floor price 2: the raw trait score is 85
and the multiplier 0.7. Whenever the product of line 263 is below 59.5 and at least
58.5, as `59.49999999999999` is, the reported rarityScore is 59; at the exact product
`59.5` it is 60. -/
theorem getNFTMetadataWith_rarity_one_floor_two (times : ℚ → ℚ → ℚ) (log10 : ℚ → ℚ)
    (hlog : log10 1 = 0) (hlo : 58.5 ≤ times 85 0.7) (hhi : times 85 0.7 < 59.5) :
    getNFTMetadataWith times log10 [Trait.mk "Fur" "Gold" (some 1)] 2
        = { rarityScore := some 59, rarityPercentile := some 59 } ∧
      getNFTMetadata log10 [Trait.mk "Fur" "Gold" (some 1)] 2
        = { rarityScore := some 60, rarityPercentile := some 60 } := by
  have hraw : traitScore log10 [Trait.mk "Fur" "Gold" (some 1)] = (true, some 85) := by
    have hmax : max (0.1 : ℚ) 1 = 1 := by norm_num
    simp [traitScore, validTraits, harmonicSum, toNumber, hmax, hlog]
    norm_num
  have hctx : marketContext 2 = (0.7, 70) := by
    unfold marketContext
    norm_num
  have h59 : mathRound (times 85 0.7) = 59 := by
    unfold mathRound
    have : ⌊times 85 0.7 + 1 / 2⌋ = 59 := by
      rw [Int.floor_eq_iff]
      constructor
      · norm_num at hlo ⊢; linarith
      · norm_num at hhi ⊢; linarith
    rw [this]; norm_num
  have h60 : mathRound (85 * 0.7) = 60 := by
    unfold mathRound
    have : ⌊(85 : ℚ) * 0.7 + 1 / 2⌋ = 60 := by
      rw [Int.floor_eq_iff]
      constructor <;> norm_num
    rw [this]; norm_num
  constructor
  · rw [getNFTMetadataWith_of_raw times log10 _ 2 85 hraw, hctx]
    simp only [h59]
    norm_num
  · rw [← getNFTMetadataWith_exact, getNFTMetadataWith_of_raw _ log10 _ 2 85 hraw, hctx]
    simp only [h60]
    norm_num

/-- Claim C3: for every trait list with at least one valid trait and every floor price,
the reported rarityScore is `min(cap, round(rawTraitScore * multiplier))` for the
tier selected by the floor price, the product being the one line 263 computes
(`times`, any multiplication, that of doubles included), and the reported
rarityPercentile is that same rarityScore. The same holds of lines 241-266 and 284-285
from any value of the local `rawTraitScore`. -/
theorem rarityScore_eq_min_cap_round (times : ℚ → ℚ → ℚ) (log10 : ℚ → ℚ)
    (traits : List Trait) (f : ℚ)
    (h : ∃ t ∈ traits, ∃ r, t.rarity = some r ∧ 0 < r) :
    (∃ raw, (traitScore log10 traits).2 = some raw ∧
      (getNFTMetadataWith times log10 traits f).rarityScore
        = some (min (marketContext f).2 (mathRound (times raw (marketContext f).1))) ∧
      (getNFTMetadataWith times log10 traits f).rarityPercentile
        = (getNFTMetadataWith times log10 traits f).rarityScore) ∧
    ∀ raw : ℚ,
      (rarityFields (marketStep times true (some raw) f).1
          (marketStep times true (some raw) f).2).rarityScore
        = some (min (marketContext f).2 (mathRound (times raw (marketContext f).1))) ∧
      (rarityFields (marketStep times true (some raw) f).1
          (marketStep times true (some raw) f).2).rarityPercentile
        = (rarityFields (marketStep times true (some raw) f).1
            (marketStep times true (some raw) f).2).rarityScore := by
  constructor
  · obtain ⟨raw, hraw⟩ := traitScore_of_valid log10 traits h
    refine ⟨raw, by rw [hraw], ?_, ?_⟩
    · rw [getNFTMetadataWith_of_raw times log10 traits f raw hraw]
    · rw [getNFTMetadataWith_of_raw times log10 traits f raw hraw]
  · intro raw
    rw [rarityFields_marketStep]
    exact ⟨rfl, rfl⟩

/-- Claim C4 (the code at the example of the specification): for the trait list
`[{rarity: null}, {rarity: 0}]` and any floor price, `getNFTMetadata` reports
rarityScore 0, not null, while rarityPercentile is null. -/
theorem getNFTMetadata_no_valid_trait_reports_zero (log10 : ℚ → ℚ) (f : ℚ) :
    getNFTMetadata log10 [Trait.mk "Background" "Blue" none, Trait.mk "Hat" "Cap" (some 0)] f
      = { rarityScore := some 0, rarityPercentile := none } ∧
    (traitScore log10 [Trait.mk "Background" "Blue" none, Trait.mk "Hat" "Cap" (some 0)]).2
      = none := by
  have hz : mathRound 0 = 0 := by simpa using mathRound_intCast 0
  constructor
  · simp [getNFTMetadata, scoreLocals, traitScore, validTraits, toNumber, hz]
  · simp [traitScore, validTraits]


/-- Claim C3 at the trait list `[{rarity: 1}]` and floor price 2, the product of line
263 being `59.49999999999999` at 85 and 0.7 and exact elsewhere. -/
theorem rarityScore_eq_min_cap_round_witness :
    (∃ t ∈ [Trait.mk "Fur" "Gold" (some 1)], ∃ r, t.rarity = some r ∧ 0 < r) ∧
    ((∃ raw, (traitScore (fun x => x - 1) [Trait.mk "Fur" "Gold" (some 1)]).2 = some raw ∧
      (getNFTMetadataWith
          (fun a b => if a = 85 ∧ b = 0.7 then 59.49999999999999 else a * b)
          (fun x => x - 1) [Trait.mk "Fur" "Gold" (some 1)] 2).rarityScore
        = some (min (marketContext 2).2
            (mathRound ((fun a b => if a = 85 ∧ b = 0.7 then (59.49999999999999 : ℚ) else a * b)
              raw (marketContext 2).1))) ∧
      (getNFTMetadataWith
          (fun a b => if a = 85 ∧ b = 0.7 then 59.49999999999999 else a * b)
          (fun x => x - 1) [Trait.mk "Fur" "Gold" (some 1)] 2).rarityPercentile
        = (getNFTMetadataWith
          (fun a b => if a = 85 ∧ b = 0.7 then 59.49999999999999 else a * b)
          (fun x => x - 1) [Trait.mk "Fur" "Gold" (some 1)] 2).rarityScore) ∧
    ∀ raw : ℚ,
      (rarityFields
          (marketStep (fun a b => if a = 85 ∧ b = 0.7 then 59.49999999999999 else a * b)
            true (some raw) 2).1
          (marketStep (fun a b => if a = 85 ∧ b = 0.7 then 59.49999999999999 else a * b)
            true (some raw) 2).2).rarityScore
        = some (min (marketContext 2).2
            (mathRound ((fun a b => if a = 85 ∧ b = 0.7 then (59.49999999999999 : ℚ) else a * b)
              raw (marketContext 2).1))) ∧
      (rarityFields
          (marketStep (fun a b => if a = 85 ∧ b = 0.7 then 59.49999999999999 else a * b)
            true (some raw) 2).1
          (marketStep (fun a b => if a = 85 ∧ b = 0.7 then 59.49999999999999 else a * b)
            true (some raw) 2).2).rarityPercentile
        = (rarityFields
          (marketStep (fun a b => if a = 85 ∧ b = 0.7 then 59.49999999999999 else a * b)
            true (some raw) 2).1
          (marketStep (fun a b => if a = 85 ∧ b = 0.7 then 59.49999999999999 else a * b)
            true (some raw) 2).2).rarityScore) :=
  ⟨⟨Trait.mk "Fur" "Gold" (some 1), by simp, 1, rfl, by norm_num⟩,
    rarityScore_eq_min_cap_round
      (fun a b => if a = 85 ∧ b = 0.7 then 59.49999999999999 else a * b)
      (fun x => x - 1) [Trait.mk "Fur" "Gold" (some 1)] 2
      ⟨Trait.mk "Fur" "Gold" (some 1), by simp, 1, rfl, by norm_num⟩⟩

/-! ### Objects -/

namespace JSObject

variable {α β : Type}

theorem lookup_assign_same (l : List (String × α)) (k : String) (v : α) :
    lookup (assign l k v) k = some v := by
  induction l with
  | nil => simp [assign, lookup]
  | cons p rest ih =>
    obtain ⟨k', w⟩ := p
    by_cases h : k' = k
    · simp [assign, lookup, h]
    · simp [assign, lookup, h, ih]

theorem lookup_assign_ne (l : List (String × α)) (k k' : String) (v : α) (hne : k ≠ k') :
    lookup (assign l k v) k' = lookup l k' := by
  induction l with
  | nil => simp [assign, lookup, hne]
  | cons p rest ih =>
    obtain ⟨k2, w⟩ := p
    by_cases h : k2 = k
    · subst h
      simp [assign, lookup, hne]
    · by_cases h2 : k2 = k'
      · subst h2
        simp [assign, lookup, h]
      · simp [assign, lookup, h, h2, ih]

theorem get_set_same (o : JSObject α) (k : String) (v : α) : (o.set k v).get k = some v :=
  lookup_assign_same o.props k v

theorem get_set_ne (o : JSObject α) (k k' : String) (v : α) (hne : k ≠ k') :
    (o.set k v).get k' = o.get k' :=
  lookup_assign_ne o.props k k' v hne

theorem get_empty (k : String) : (empty : JSObject α).get k = none := rfl

theorem get_eq_none_of_not_mem_keys (o : JSObject α) (k : String) (h : k ∉ o.keys) :
    o.get k = none := by
  obtain ⟨l⟩ := o
  induction l with
  | nil => rfl
  | cons p rest ih =>
    obtain ⟨k', w⟩ := p
    simp only [keys, List.map_cons, List.mem_cons, not_or] at h
    have hne : ¬ k' = k := fun e => h.1 e.symm
    simp only [get, lookup, hne, if_false]
    exact ih h.2

theorem get_foldl_set (g : String → Option α) (F : String → α → β) (ks : List String)
    (init : JSObject β) (k : String) :
    (ks.foldl (fun acc key =>
        match g key with
        | none => acc
        | some v => acc.set key (F key v)) init).get k
      = if k ∈ ks then
          (match g k with
            | none => init.get k
            | some v => some (F k v))
        else init.get k := by
  induction ks generalizing init with
  | nil => simp
  | cons key rest ih =>
    rw [List.foldl_cons, ih]
    by_cases hk : key = k
    · subst hk
      rcases hg : g key with _ | v
      · simp
      · simp [get_set_same]
    · have hk' : ¬ k = key := fun e => hk e.symm
      rcases hg : g key with _ | v
      · simp [hk']
      · simp [hk', get_set_ne _ _ _ _ hk]

theorem get_forEachKey_set (o : JSObject α) (F : String → α → β) (k : String) :
    (o.forEachKey empty (fun acc key v => acc.set key (F key v))).get k
      = (o.get k).map (F k) := by
  unfold forEachKey
  rw [get_foldl_set (fun key => o.get key) F o.keys empty k]
  by_cases hk : k ∈ o.keys
  · rcases hg : o.get k with _ | v <;> simp [hk, get_empty]
  · simp [hk, get_eq_none_of_not_mem_keys o k hk, get_empty]

end JSObject


/-! ### `getCollectionStats` -/

theorem statsEntry_stats (summary : AttributeSummary) (traitType value : String) :
    statsEntry (stats summary) traitType value
      = (summaryCount summary traitType value).map
          (fun c => { count := c, percentage := c / totalSupply summary * 100 }) := by
  unfold statsEntry summaryCount stats
  rcases hs : summary.summary with _ | s
  · simp [JSObject.get_empty]
  · simp only [Option.some_bind]
    rw [JSObject.get_forEachKey_set s (fun _ values => traitTypeStats values (totalSupply summary))]
    rcases ht : s.get traitType with _ | values
    · simp
    · simp only [Option.map_some', Option.some_bind]
      unfold traitTypeStats
      rw [JSObject.get_forEachKey_set values
        (fun _ c => ({ count := c, percentage := c / totalSupply summary * 100 } : TraitStat))]

theorem getCollectionStats_miss_ok (upstream : String → Except String AttributeSummary)
    (w : World) (contractAddress : String) (summary : AttributeSummary)
    (hmiss : w.collectionStatsCache.get contractAddress = none)
    (hup : upstream contractAddress = Except.ok summary) :
    getCollectionStats upstream w contractAddress
      = (Completion.returned (some (stats summary)),
          { collectionStatsCache := w.collectionStatsCache.set contractAddress (stats summary),
            upstreamCalls := w.upstreamCalls ++ [contractAddress] }) := by
  simp [getCollectionStats, enter, finish, resume, hmiss, hup]

theorem getCollectionStats_miss_error (upstream : String → Except String AttributeSummary)
    (w : World) (contractAddress : String) (e : String)
    (hmiss : w.collectionStatsCache.get contractAddress = none)
    (hup : upstream contractAddress = Except.error e) :
    getCollectionStats upstream w contractAddress
      = (Completion.returned none,
          { collectionStatsCache := w.collectionStatsCache,
            upstreamCalls := w.upstreamCalls ++ [contractAddress] }) := by
  simp [getCollectionStats, enter, finish, resume, hmiss, hup]

theorem getCollectionStats_hit (upstream : String → Except String AttributeSummary)
    (w : World) (contractAddress : String) (s : CollectionStats)
    (hhit : w.collectionStatsCache.get contractAddress = some s) :
    getCollectionStats upstream w contractAddress = (Completion.returned (some s), w) := by
  simp [getCollectionStats, enter, finish, hhit]

/-- Claim C5: for every attribute summary, every total supply greater than 0 and every
(traitType, value) pair with raw count `c`, the stats built by `getCollectionStats`
store `count = c` and `percentage = 100 * c / totalSupply` for the pair, unrounded,
and the stats hold an entry for exactly the pairs of the summary. -/
theorem getCollectionStats_percentage (upstream : String → Except String AttributeSummary)
    (w : World) (contractAddress : String) (summary : AttributeSummary) (n : ℚ)
    (hn : 0 < n) (hsupply : summary.totalSupply = some n)
    (hmiss : w.collectionStatsCache.get contractAddress = none)
    (hup : upstream contractAddress = Except.ok summary) :
    ∃ st, (getCollectionStats upstream w contractAddress).1 = Completion.returned (some st) ∧
      ∀ traitType value, statsEntry st traitType value
        = (summaryCount summary traitType value).map
            (fun c => { count := c, percentage := 100 * c / n }) := by
  refine ⟨stats summary, ?_, ?_⟩
  · rw [getCollectionStats_miss_ok upstream w contractAddress summary hmiss hup]
  · intro traitType value
    rw [statsEntry_stats]
    have hts : totalSupply summary = n := by
      simp [totalSupply, hsupply, ne_of_gt hn]
    rw [hts]
    congr 1
    funext c
    congr 1
    ring


/-- Claim C5 at the summary `{Fur: {Gold: 3}}` with total supply 200. -/
theorem getCollectionStats_percentage_witness :
    (0 : ℚ) < 200 ∧
    (AttributeSummary.mk (some ⟨[("Fur", ⟨[("Gold", 3)]⟩)]⟩) (some 200)).totalSupply = some 200 ∧
    (World.mk JSObject.empty []).collectionStatsCache.get "0xabc" = none ∧
    ∃ st, (getCollectionStats
          (fun _ => Except.ok (AttributeSummary.mk (some ⟨[("Fur", ⟨[("Gold", 3)]⟩)]⟩) (some 200)))
          (World.mk JSObject.empty []) "0xabc").1 = Completion.returned (some st) ∧
      ∀ traitType value, statsEntry st traitType value
        = (summaryCount (AttributeSummary.mk (some ⟨[("Fur", ⟨[("Gold", 3)]⟩)]⟩) (some 200))
            traitType value).map (fun c => { count := c, percentage := 100 * c / 200 }) :=
  ⟨by norm_num, rfl, rfl,
    getCollectionStats_percentage _ (World.mk JSObject.empty []) "0xabc" _ 200
      (by norm_num) rfl rfl rfl⟩

/-- Claim C6 (as stated, refuted): with `totalSupply = -5` and count 1 for ("Fur", "Gold"),
`getCollectionStats` stores the percentage `1 / (-5) * 100 = -20`, computed against
the negative supply, and not `100 * 1 / 10000`. -/
theorem getCollectionStats_negative_supply_not_fallback :
    ((getCollectionStats
        (fun _ => Except.ok (AttributeSummary.mk (some ⟨[("Fur", ⟨[("Gold", 1)]⟩)]⟩) (some (-5))))
        (World.mk JSObject.empty []) "0xabc").1
      = Completion.returned (some ⟨[("Fur", ⟨[("Gold", { count := 1, percentage := -20 })]⟩)]⟩)) ∧
    ((-20 : ℚ) ≠ 100 * 1 / 10000) := by
  constructor
  · rw [getCollectionStats_miss_ok _ (World.mk JSObject.empty []) "0xabc"
      (AttributeSummary.mk (some ⟨[("Fur", ⟨[("Gold", 1)]⟩)]⟩) (some (-5))) rfl rfl]
    simp [stats, traitTypeStats, totalSupply, JSObject.forEachKey, JSObject.keys, JSObject.get,
      JSObject.lookup, JSObject.set, JSObject.assign, JSObject.empty]
    norm_num
  · norm_num

/-- Claim C6 (amended): whenever the summary's totalSupply is zero or absent,
`getCollectionStats` computes every percentage against the fallback supply 10000,
that is `percentage = 100 * count / 10000`. -/
theorem getCollectionStats_fallback_supply (upstream : String → Except String AttributeSummary)
    (w : World) (contractAddress : String) (summary : AttributeSummary)
    (hsupply : summary.totalSupply = none ∨ summary.totalSupply = some 0)
    (hmiss : w.collectionStatsCache.get contractAddress = none)
    (hup : upstream contractAddress = Except.ok summary) :
    ∃ st, (getCollectionStats upstream w contractAddress).1 = Completion.returned (some st) ∧
      ∀ traitType value, statsEntry st traitType value
        = (summaryCount summary traitType value).map
            (fun c => { count := c, percentage := 100 * c / 10000 }) := by
  refine ⟨stats summary, ?_, ?_⟩
  · rw [getCollectionStats_miss_ok upstream w contractAddress summary hmiss hup]
  · intro traitType value
    rw [statsEntry_stats]
    have hts : totalSupply summary = 10000 := by
      rcases hsupply with h | h <;> simp [totalSupply, h]
    rw [hts]
    congr 1
    funext c
    congr 1
    ring

/-- Claim C6 (amended) at the summary `{Fur: {Gold: 3}}` with total supply 0. -/
theorem getCollectionStats_fallback_supply_witness :
    ((AttributeSummary.mk (some ⟨[("Fur", ⟨[("Gold", 3)]⟩)]⟩) (some 0)).totalSupply = none ∨
      (AttributeSummary.mk (some ⟨[("Fur", ⟨[("Gold", 3)]⟩)]⟩) (some 0)).totalSupply = some 0) ∧
    (World.mk JSObject.empty []).collectionStatsCache.get "0xabc" = none ∧
    ∃ st, (getCollectionStats
          (fun _ => Except.ok (AttributeSummary.mk (some ⟨[("Fur", ⟨[("Gold", 3)]⟩)]⟩) (some 0)))
          (World.mk JSObject.empty []) "0xabc").1 = Completion.returned (some st) ∧
      ∀ traitType value, statsEntry st traitType value
        = (summaryCount (AttributeSummary.mk (some ⟨[("Fur", ⟨[("Gold", 3)]⟩)]⟩) (some 0))
            traitType value).map (fun c => { count := c, percentage := 100 * c / 10000 }) :=
  ⟨Or.inr rfl, rfl,
    getCollectionStats_fallback_supply _ (World.mk JSObject.empty []) "0xabc" _
      (Or.inr rfl) rfl rfl⟩

/-! ### The cache -/

theorem getCollectionStats_preserves_entry (upstream : String → Except String AttributeSummary)
    (w : World) (other contractAddress : String) (s : CollectionStats)
    (h : w.collectionStatsCache.get contractAddress = some s) :
    (getCollectionStats upstream w other).2.collectionStatsCache.get contractAddress = some s := by
  rcases hother : w.collectionStatsCache.get other with _ | cachedStats
  · rcases hup : upstream other with e | summary
    · rw [getCollectionStats_miss_error upstream w other e hother hup]
      exact h
    · rw [getCollectionStats_miss_ok upstream w other summary hother hup]
      have hne : other ≠ contractAddress := by
        intro heq
        rw [heq, h] at hother
        exact Option.noConfusion hother
      simp only
      rw [JSObject.get_set_ne _ _ _ _ hne]
      exact h
  · rw [getCollectionStats_hit upstream w other cachedStats hother]
    exact h

theorem runCalls_preserves_entry (calls : List (String × (String → Except String AttributeSummary)))
    (w : World) (contractAddress : String) (s : CollectionStats)
    (h : w.collectionStatsCache.get contractAddress = some s) :
    (runCalls w calls).collectionStatsCache.get contractAddress = some s := by
  induction calls generalizing w with
  | nil => exact h
  | cons c rest ih =>
    obtain ⟨other, upstream⟩ := c
    exact ih _ (getCollectionStats_preserves_entry upstream w other contractAddress s h)

theorem getCollectionStats_success_cached (upstream : String → Except String AttributeSummary)
    (w w1 : World) (contractAddress : String) (s : CollectionStats)
    (h : getCollectionStats upstream w contractAddress = (Completion.returned (some s), w1)) :
    w1.collectionStatsCache.get contractAddress = some s := by
  rcases hc : w.collectionStatsCache.get contractAddress with _ | cachedStats
  · rcases hup : upstream contractAddress with e | summary
    · rw [getCollectionStats_miss_error upstream w contractAddress e hc hup] at h
      simp at h
    · rw [getCollectionStats_miss_ok upstream w contractAddress summary hc hup] at h
      simp only [Prod.mk.injEq, Completion.returned.injEq, Option.some.injEq] at h
      rw [← h.2, ← h.1]
      exact JSObject.get_set_same _ _ _
  · rw [getCollectionStats_hit upstream w contractAddress cachedStats hc] at h
    simp only [Prod.mk.injEq, Completion.returned.injEq, Option.some.injEq] at h
    rw [← h.2, ← h.1]
    exact hc

/-- Claim C7: after a call of `getCollectionStats` for a collection has succeeded with
stats `s`, every later call for the same collection, after any sequence of calls in
between and whatever the upstream would now answer (a failure or different data),
returns the identical stats `s` and leaves the world unchanged: the upstream is not
invoked. -/
theorem getCollectionStats_cached_after_success
    (upstream : String → Except String AttributeSummary) (w w1 : World)
    (contractAddress : String) (s : CollectionStats)
    (hsuccess : getCollectionStats upstream w contractAddress = (Completion.returned (some s), w1))
    (between : List (String × (String → Except String AttributeSummary)))
    (later : String → Except String AttributeSummary) :
    getCollectionStats later (runCalls w1 between) contractAddress
      = (Completion.returned (some s), runCalls w1 between) :=
  getCollectionStats_hit later _ contractAddress s
    (runCalls_preserves_entry between w1 contractAddress s
      (getCollectionStats_success_cached upstream w w1 contractAddress s hsuccess))


/-- Claim C7 at an empty cache: a successful call, a failing call for another collection, then a call whose upstream would fail. -/
theorem getCollectionStats_cached_after_success_witness :
    getCollectionStats (fun _ => Except.ok (AttributeSummary.mk none none))
        (World.mk JSObject.empty []) "0xabc"
      = (Completion.returned (some (stats (AttributeSummary.mk none none))),
          World.mk (JSObject.empty.set "0xabc" (stats (AttributeSummary.mk none none))) ["0xabc"]) ∧
    getCollectionStats (fun _ => Except.error "unavailable")
        (runCalls
          (World.mk (JSObject.empty.set "0xabc" (stats (AttributeSummary.mk none none))) ["0xabc"])
          [("0xdef", fun _ => Except.error "unavailable")]) "0xabc"
      = (Completion.returned (some (stats (AttributeSummary.mk none none))),
          runCalls
            (World.mk (JSObject.empty.set "0xabc" (stats (AttributeSummary.mk none none))) ["0xabc"])
            [("0xdef", fun _ => Except.error "unavailable")]) :=
  ⟨getCollectionStats_miss_ok _ _ _ _ rfl rfl,
    getCollectionStats_cached_after_success (fun _ => Except.ok (AttributeSummary.mk none none))
      (World.mk JSObject.empty []) _ "0xabc" _ (getCollectionStats_miss_ok _ _ _ _ rfl rfl)
      [("0xdef", fun _ => Except.error "unavailable")] (fun _ => Except.error "unavailable")⟩

/-! ### Calls in flight together -/

/-- What a call suspended at the `await` returns once its upstream promise has settled. -/
theorem resume_fst (w : World) (contractAddress : String)
    (settled : Except String AttributeSummary) :
    (resume w contractAddress settled).1
      = (match settled with
        | Except.error _ => Completion.returned none
        | Except.ok summary => Completion.returned (some (stats summary))) := by
  cases settled <;> rfl

theorem resume_upstreamCalls (w : World) (contractAddress : String)
    (settled : Except String AttributeSummary) :
    (resume w contractAddress settled).2.upstreamCalls = w.upstreamCalls := by
  cases settled <;> rfl

theorem enterAll_miss (w : World) (contractAddress : String) (k : Nat)
    (hmiss : w.collectionStatsCache.get contractAddress = none) :
    enterAll w contractAddress k
      = (List.replicate k Entered.awaiting,
          { collectionStatsCache := w.collectionStatsCache,
            upstreamCalls := w.upstreamCalls ++ List.replicate k contractAddress }) := by
  induction k generalizing w with
  | zero => simp [enterAll]
  | succ k ih =>
    have hent : enter w contractAddress
        = (Entered.awaiting, { collectionStatsCache := w.collectionStatsCache,
                               upstreamCalls := w.upstreamCalls ++ [contractAddress] }) := by
      simp [enter, hmiss]
    simp only [enterAll, hent]
    rw [ih (World.mk w.collectionStatsCache (w.upstreamCalls ++ [contractAddress])) hmiss]
    simp [List.replicate_succ]

theorem finishAll_awaiting (w : World) (contractAddress : String)
    (settled : List (Except String AttributeSummary)) :
    (finishAll w contractAddress (settled.map (fun r => (Entered.awaiting, r)))).1
        = settled.map (fun r => (resume w contractAddress r).1) ∧
      (finishAll w contractAddress (settled.map (fun r => (Entered.awaiting, r)))).2.upstreamCalls
        = w.upstreamCalls := by
  induction settled generalizing w with
  | nil => simp [finishAll]
  | cons r rest ih =>
    simp only [List.map_cons, finishAll, finish]
    obtain ⟨h1, h2⟩ := ih (resume w contractAddress r).2
    refine ⟨?_, ?_⟩
    · rw [h1]
      congr 1
      apply List.map_congr_left
      intro r' _
      rw [resume_fst, resume_fst]
    · rw [h2, resume_upstreamCalls]

theorem zip_replicate_awaiting (settled : List (Except String AttributeSummary)) :
    (List.replicate settled.length Entered.awaiting).zip settled
      = settled.map (fun r => (Entered.awaiting, r)) := by
  induction settled with
  | nil => rfl
  | cons r rest ih => simp [List.replicate_succ, ih]

/-- Claim C8 (as stated, refuted): two calls for the same uncached collection in flight
together invoke the upstream twice, not once, and when the two upstream answers
differ the two calls return different stats. -/
theorem concurrentCalls_two_fetches :
    (concurrentCalls (World.mk JSObject.empty []) "0xabc"
        [Except.ok (AttributeSummary.mk none none),
         Except.ok (AttributeSummary.mk (some ⟨[("Fur", ⟨[]⟩)]⟩) none)]).2.upstreamCalls
      = ["0xabc", "0xabc"] ∧
    (concurrentCalls (World.mk JSObject.empty []) "0xabc"
        [Except.ok (AttributeSummary.mk none none),
         Except.ok (AttributeSummary.mk (some ⟨[("Fur", ⟨[]⟩)]⟩) none)]).1
      = [Completion.returned (some ⟨[]⟩),
         Completion.returned (some ⟨[("Fur", ⟨[]⟩)]⟩)] ∧
    (Completion.returned (some (⟨[]⟩ : CollectionStats))
      ≠ Completion.returned (some ⟨[("Fur", ⟨[]⟩)]⟩)) := by
  refine ⟨?_, ?_, ?_⟩
  · simp [concurrentCalls, enterAll, enter, finishAll, finish, resume, JSObject.get,
      JSObject.lookup, JSObject.empty]
  · simp [concurrentCalls, enterAll, enter, finishAll, finish, resume, JSObject.get,
      JSObject.lookup, JSObject.empty, stats, traitTypeStats, JSObject.forEachKey, JSObject.keys,
      JSObject.set, JSObject.assign]
  · simp

/-- Claim C8 (amended): when K calls of `getCollectionStats` for the same uncached
collection are in flight together (K >= 2 included), the upstream is invoked K times,
once per call,
and each call returns the stats built from the answer to its own upstream request
(`null` when that request failed); so the K calls return the same stats whenever the
K upstream requests give the same summary. -/
theorem concurrentCalls_fetch_per_call (w : World) (contractAddress : String)
    (settled : List (Except String AttributeSummary))
    (hmiss : w.collectionStatsCache.get contractAddress = none) :
    (concurrentCalls w contractAddress settled).2.upstreamCalls
        = w.upstreamCalls ++ List.replicate settled.length contractAddress ∧
      (concurrentCalls w contractAddress settled).1
        = settled.map (fun r =>
            match r with
            | Except.error _ => Completion.returned none
            | Except.ok summary => Completion.returned (some (stats summary))) ∧
      ∀ summary, (∀ r ∈ settled, r = Except.ok summary) →
        ∀ c ∈ (concurrentCalls w contractAddress settled).1,
          c = Completion.returned (some (stats summary)) := by
  have hres : (concurrentCalls w contractAddress settled).1
        = settled.map (fun r =>
            match r with
            | Except.error _ => Completion.returned none
            | Except.ok summary => Completion.returned (some (stats summary))) := by
    unfold concurrentCalls
    simp only [enterAll_miss w contractAddress settled.length hmiss, zip_replicate_awaiting]
    rw [(finishAll_awaiting _ contractAddress settled).1]
    apply List.map_congr_left
    intro r _
    rw [resume_fst]
  refine ⟨?_, hres, ?_⟩
  · unfold concurrentCalls
    simp only [enterAll_miss w contractAddress settled.length hmiss, zip_replicate_awaiting]
    rw [(finishAll_awaiting _ contractAddress settled).2]
  · intro summary hall c hc
    rw [hres, List.mem_map] at hc
    obtain ⟨r, hr, hrc⟩ := hc
    rw [hall r hr] at hrc
    exact hrc.symm


/-- Claim C8 (amended) at two calls in flight together, one upstream request answered and the other failing. -/
theorem concurrentCalls_fetch_per_call_witness :
    (World.mk JSObject.empty ["0xdef"]).collectionStatsCache.get "0xabc" = none ∧
    ((concurrentCalls (World.mk JSObject.empty ["0xdef"]) "0xabc"
        [Except.ok (AttributeSummary.mk none none), Except.error "unavailable"]).2.upstreamCalls
        = (World.mk JSObject.empty ["0xdef"]).upstreamCalls
            ++ List.replicate
              [Except.ok (AttributeSummary.mk none none), Except.error "unavailable"].length "0xabc" ∧
      (concurrentCalls (World.mk JSObject.empty ["0xdef"]) "0xabc"
        [Except.ok (AttributeSummary.mk none none), Except.error "unavailable"]).1
        = [Except.ok (AttributeSummary.mk none none), Except.error "unavailable"].map (fun r =>
            match r with
            | Except.error _ => Completion.returned none
            | Except.ok summary => Completion.returned (some (stats summary))) ∧
      ∀ summary,
        (∀ r ∈ [Except.ok (AttributeSummary.mk none none), Except.error "unavailable"],
          r = Except.ok summary) →
        ∀ c ∈ (concurrentCalls (World.mk JSObject.empty ["0xdef"]) "0xabc"
            [Except.ok (AttributeSummary.mk none none), Except.error "unavailable"]).1,
          c = Completion.returned (some (stats summary))) :=
  ⟨rfl, concurrentCalls_fetch_per_call (World.mk JSObject.empty ["0xdef"]) "0xabc"
    [Except.ok (AttributeSummary.mk none none), Except.error "unavailable"] rfl⟩

/-! ### Upstream failure -/

/-- Claim C9 (as stated, refuted): with an empty cache and an upstream that fails, the call
returns `null` to its caller; it does not end by throwing. -/
theorem getCollectionStats_failure_not_thrown :
    (getCollectionStats (fun _ => Except.error "unavailable")
        (World.mk JSObject.empty []) "0xabc").1 = Completion.returned none ∧
    ¬ ∃ message, (getCollectionStats (fun _ => Except.error "unavailable")
        (World.mk JSObject.empty []) "0xabc").1 = Completion.threw message := by
  have h := getCollectionStats_miss_error (fun _ => Except.error "unavailable")
    (World.mk JSObject.empty []) "0xabc" "unavailable" rfl rfl
  constructor
  · rw [h]
  · rintro ⟨message, hm⟩
    rw [h] at hm
    exact Completion.noConfusion hm

/-- Claim C9 (amended): when the upstream fetch fails during `getCollectionStats` on an
uncached collection, the failure is caught and the call returns `null` to its caller
as an ordinary return value; no error is raised. -/
theorem getCollectionStats_failure_returns_null
    (upstream : String → Except String AttributeSummary) (w : World)
    (contractAddress : String) (e : String)
    (hmiss : w.collectionStatsCache.get contractAddress = none)
    (hfail : upstream contractAddress = Except.error e) :
    (getCollectionStats upstream w contractAddress).1 = Completion.returned none := by
  rw [getCollectionStats_miss_error upstream w contractAddress e hmiss hfail]

/-- Claim C9 (amended) at an empty cache and an upstream that fails. -/
theorem getCollectionStats_failure_returns_null_witness :
    (World.mk JSObject.empty []).collectionStatsCache.get "0xabc" = none ∧
    (fun _ : String => (Except.error "timeout" : Except String AttributeSummary)) "0xabc"
      = Except.error "timeout" ∧
    (getCollectionStats (fun _ => Except.error "timeout")
        (World.mk JSObject.empty []) "0xabc").1 = Completion.returned none :=
  ⟨rfl, rfl,
    getCollectionStats_failure_returns_null (fun _ => Except.error "timeout")
      (World.mk JSObject.empty []) "0xabc" "timeout" rfl rfl⟩

/-- Claim C10: when the upstream fetch fails during `getCollectionStats`, the cache is left
exactly as it was before the call (nothing is stored for that collection, entries of
other collections are untouched), so the next call for that collection invokes the
upstream again, whatever the upstream answers then. -/
theorem getCollectionStats_failure_leaves_cache
    (upstream : String → Except String AttributeSummary) (w : World)
    (contractAddress : String) (e : String)
    (hmiss : w.collectionStatsCache.get contractAddress = none)
    (hfail : upstream contractAddress = Except.error e) :
    (getCollectionStats upstream w contractAddress).2.collectionStatsCache
        = w.collectionStatsCache ∧
      (getCollectionStats upstream w contractAddress).2.upstreamCalls
        = w.upstreamCalls ++ [contractAddress] ∧
      ∀ next : String → Except String AttributeSummary,
        (getCollectionStats next (getCollectionStats upstream w contractAddress).2
            contractAddress).2.upstreamCalls
          = w.upstreamCalls ++ [contractAddress] ++ [contractAddress] := by
  rw [getCollectionStats_miss_error upstream w contractAddress e hmiss hfail]
  refine ⟨rfl, rfl, ?_⟩
  intro next
  rcases hn : next contractAddress with e2 | summary
  · rw [getCollectionStats_miss_error next
      (World.mk w.collectionStatsCache (w.upstreamCalls ++ [contractAddress]))
      contractAddress e2 hmiss hn]
  · rw [getCollectionStats_miss_ok next
      (World.mk w.collectionStatsCache (w.upstreamCalls ++ [contractAddress]))
      contractAddress summary hmiss hn]

/-- Claim C10 at a cache holding another collection and an upstream that fails. -/
theorem getCollectionStats_failure_leaves_cache_witness :
    (World.mk (JSObject.empty.set "0xdef" JSObject.empty) ["0xdef"]).collectionStatsCache.get
        "0xabc" = none ∧
    (getCollectionStats (fun _ => Except.error "timeout")
        (World.mk (JSObject.empty.set "0xdef" JSObject.empty) ["0xdef"])
        "0xabc").2.collectionStatsCache
        = (World.mk (JSObject.empty.set "0xdef" JSObject.empty) ["0xdef"]).collectionStatsCache ∧
      (getCollectionStats (fun _ => Except.error "timeout")
        (World.mk (JSObject.empty.set "0xdef" JSObject.empty) ["0xdef"])
        "0xabc").2.upstreamCalls
        = (World.mk (JSObject.empty.set "0xdef" JSObject.empty) ["0xdef"]).upstreamCalls
            ++ ["0xabc"] ∧
      ∀ next : String → Except String AttributeSummary,
        (getCollectionStats next
            (getCollectionStats (fun _ => Except.error "timeout")
              (World.mk (JSObject.empty.set "0xdef" JSObject.empty) ["0xdef"]) "0xabc").2
            "0xabc").2.upstreamCalls
          = (World.mk (JSObject.empty.set "0xdef" JSObject.empty) ["0xdef"]).upstreamCalls
              ++ ["0xabc"] ++ ["0xabc"] :=
  ⟨by decide,
    getCollectionStats_failure_leaves_cache (fun _ => Except.error "timeout")
      (World.mk (JSObject.empty.set "0xdef" JSObject.empty) ["0xdef"]) "0xabc" "timeout"
      (by decide) rfl⟩


/-! ### Trait processing -/

theorem toFixed2_isHundredth (x : ℚ) : ∃ n : ℤ, toFixed2 x = (n : ℚ) / 100 := by
  unfold toFixed2
  split_ifs
  · exact ⟨-⌊-x * 100 + 1 / 2⌋, by push_cast; ring⟩
  · exact ⟨⌊x * 100 + 1 / 2⌋, rfl⟩

theorem toFixed2_near (x : ℚ) : |toFixed2 x - x| ≤ 1 / 200 := by
  unfold toFixed2
  split_ifs
  · have h1 := Int.floor_le (-x * 100 + 1 / 2)
    have h2 := Int.lt_floor_add_one (-x * 100 + 1 / 2)
    rw [abs_le]
    constructor <;> linarith
  · have h1 := Int.floor_le (x * 100 + 1 / 2)
    have h2 := Int.lt_floor_add_one (x * 100 + 1 / 2)
    rw [abs_le]
    constructor <;> linarith

theorem rarity_eq_statsEntry (st : CollectionStats) (traitType value : String) :
    rarity (some st) traitType value
      = (statsEntry st traitType value).map (fun entry => entry.percentage) := by
  unfold rarity statsEntry
  rcases ht : JSObject.get st traitType with _ | values
  · simp [ht]
  · rcases hv : JSObject.get values value with _ | entry
    · simp [ht, hv]
    · simp [ht, hv]

/-- Claim C11: for every raw trait, if the collection stats are null or hold no entry
for the trait's (traitType, value) pair (the trait type and the value string the
processing gives the trait), the rarity of the processed trait is null. -/
theorem processTrait_rarity_null (numberToString : ℚ → String)
    (collectionStats : Option CollectionStats) (trait : RawTrait)
    (h : collectionStats = none ∨
      ∃ st, collectionStats = some st ∧
        statsEntry st (processTrait numberToString collectionStats trait).trait_type
          (processTrait numberToString collectionStats trait).value = none) :
    (processTrait numberToString collectionStats trait).rarity = none := by
  rcases h with h | ⟨st, hst, hentry⟩
  · subst h
    simp [processTrait, rarity]
  · subst hst
    simp only [processTrait] at hentry ⊢
    rw [rarity_eq_statsEntry, hentry]
    rfl

/-- Claim C11 at the stats `{Fur: {Gold: {count: 3, percentage: 1.5}}}` and the raw
trait `{trait_type: "Fur", value: "Silver"}`. -/
theorem processTrait_rarity_null_witness :
    (some (⟨[("Fur", ⟨[("Gold", { count := 3, percentage := 1.5 })]⟩)]⟩ : CollectionStats)
        = none ∨
      ∃ st, some (⟨[("Fur", ⟨[("Gold", { count := 3, percentage := 1.5 })]⟩)]⟩ : CollectionStats)
          = some st ∧
        statsEntry st
          (processTrait (fun _ => "")
            (some ⟨[("Fur", ⟨[("Gold", { count := 3, percentage := 1.5 })]⟩)]⟩)
            (RawTrait.mk (some "Fur") none (JSValue.string "Silver"))).trait_type
          (processTrait (fun _ => "")
            (some ⟨[("Fur", ⟨[("Gold", { count := 3, percentage := 1.5 })]⟩)]⟩)
            (RawTrait.mk (some "Fur") none (JSValue.string "Silver"))).value = none) ∧
    (processTrait (fun _ => "")
        (some ⟨[("Fur", ⟨[("Gold", { count := 3, percentage := 1.5 })]⟩)]⟩)
        (RawTrait.mk (some "Fur") none (JSValue.string "Silver"))).rarity = none :=
  ⟨Or.inr ⟨_, rfl, by decide⟩,
    processTrait_rarity_null (fun _ => "")
      (some ⟨[("Fur", ⟨[("Gold", { count := 3, percentage := 1.5 })]⟩)]⟩)
      (RawTrait.mk (some "Fur") none (JSValue.string "Silver"))
      (Or.inr ⟨_, rfl, by decide⟩)⟩

/-- Claim C12 (the code at a stored percentage of 0): with the stats
`{Fur: {Gold: {count: 0, percentage: 0}}}` the raw trait
`{trait_type: "Fur", value: "Gold"}` has an entry, whose percentage 0 rounds to 0, and
the processed trait has rarity null, not the number 0. -/
theorem processTrait_zero_percentage_null :
    (∀ numberToString : ℚ → String,
      (processTrait numberToString
        (some ⟨[("Fur", ⟨[("Gold", { count := 0, percentage := 0 })]⟩)]⟩)
        (RawTrait.mk (some "Fur") none (JSValue.string "Gold")))
      = { trait_type := "Fur", value := "Gold", rarity := none }) ∧
    statsEntry (⟨[("Fur", ⟨[("Gold", { count := 0, percentage := 0 })]⟩)]⟩ : CollectionStats)
        "Fur" "Gold" = some { count := 0, percentage := 0 } ∧
    (none : Option ℚ) ≠ some (toFixed2 0) := by
  refine ⟨?_, ?_, ?_⟩
  · intro numberToString
    simp [processTrait, traitType, truthyString, value, JSValue.orElse, JSValue.truthy,
      JSValue.toStr, rarity, JSObject.get, JSObject.lookup]
  · simp [statsEntry, JSObject.get, JSObject.lookup]
  · simp

/-- For every raw trait whose (traitType, value) pair has an entry in non-null
collection stats with a stored percentage other than 0, the rarity of the processed
trait is that percentage rounded to 2 decimal places (a number, not null): a multiple
of 0.01 at distance at most 0.005 from the percentage. -/
theorem processTrait_rarity_rounded (numberToString : ℚ → String) (st : CollectionStats)
    (trait : RawTrait) (entry : TraitStat)
    (hentry : statsEntry st (processTrait numberToString (some st) trait).trait_type
      (processTrait numberToString (some st) trait).value = some entry)
    (hnz : entry.percentage ≠ 0) :
    (processTrait numberToString (some st) trait).rarity = some (toFixed2 entry.percentage) ∧
      (∃ n : ℤ, toFixed2 entry.percentage = (n : ℚ) / 100) ∧
      |toFixed2 entry.percentage - entry.percentage| ≤ 1 / 200 := by
  refine ⟨?_, toFixed2_isHundredth _, toFixed2_near _⟩
  simp only [processTrait] at hentry ⊢
  rw [rarity_eq_statsEntry, hentry]
  simp [hnz]

/-- The rounding of a non-zero percentage at the stats
`{Fur: {Gold: {count: 3, percentage: 1.234}}}` and the raw trait
`{trait_type: "Fur", value: "Gold"}`. -/
theorem processTrait_rarity_rounded_witness :
    statsEntry (⟨[("Fur", ⟨[("Gold", { count := 3, percentage := 1.234 })]⟩)]⟩ : CollectionStats)
        (processTrait (fun _ => "")
          (some ⟨[("Fur", ⟨[("Gold", { count := 3, percentage := 1.234 })]⟩)]⟩)
          (RawTrait.mk (some "Fur") none (JSValue.string "Gold"))).trait_type
        (processTrait (fun _ => "")
          (some ⟨[("Fur", ⟨[("Gold", { count := 3, percentage := 1.234 })]⟩)]⟩)
          (RawTrait.mk (some "Fur") none (JSValue.string "Gold"))).value
      = some { count := 3, percentage := 1.234 } ∧
    (({ count := 3, percentage := 1.234 } : TraitStat).percentage ≠ 0) ∧
    ((processTrait (fun _ => "")
        (some ⟨[("Fur", ⟨[("Gold", { count := 3, percentage := 1.234 })]⟩)]⟩)
        (RawTrait.mk (some "Fur") none (JSValue.string "Gold"))).rarity
      = some (toFixed2 ({ count := 3, percentage := 1.234 } : TraitStat).percentage) ∧
      (∃ n : ℤ, toFixed2 ({ count := 3, percentage := 1.234 } : TraitStat).percentage
        = (n : ℚ) / 100) ∧
      |toFixed2 ({ count := 3, percentage := 1.234 } : TraitStat).percentage
        - ({ count := 3, percentage := 1.234 } : TraitStat).percentage| ≤ 1 / 200) :=
  ⟨by simp [statsEntry, processTrait, traitType, truthyString, value, JSValue.orElse,
      JSValue.truthy, JSValue.toStr, JSObject.get, JSObject.lookup],
    by norm_num,
    processTrait_rarity_rounded (fun _ => "")
      ⟨[("Fur", ⟨[("Gold", { count := 3, percentage := 1.234 })]⟩)]⟩
      (RawTrait.mk (some "Fur") none (JSValue.string "Gold"))
      { count := 3, percentage := 1.234 }
      (by simp [statsEntry, processTrait, traitType, truthyString, value, JSValue.orElse,
        JSValue.truthy, JSValue.toStr, JSObject.get, JSObject.lookup])
      (by norm_num)⟩


theorem specValidRarities_eq_filterMap (traits : List Trait) :
    specValidRarities traits
      = (traits.map (fun t => t.rarity)).filterMap
          (fun o => o.bind (fun r => if 0 < r then some r else none)) := by
  unfold specValidRarities
  rw [List.filterMap_map]
  rfl

theorem traitScore_snd_eq_spec (log10 : ℚ → ℚ) (traits : List Trait) :
    (traitScore log10 traits).2 = specRawTraitScore log10 (traits.map (fun t => t.rarity)) := by
  unfold specRawTraitScore
  rw [← specValidRarities_eq_filterMap]
  rcases hv : specValidRarities traits with _ | ⟨r, rs⟩
  · have hlen : (validTraits traits).length = 0 := by
      rw [validTraits_length, hv]
      rfl
    unfold traitScore
    simp only [hlen, gt_iff_lt, lt_irrefl, if_false]
    split_ifs <;> rfl
  · have hlen : 0 < (validTraits traits).length := by
      rw [validTraits_length, hv]
      simp
    have ht : 0 < traits.length := by
      rcases traits with _ | ⟨t, ts⟩
      · simp [specValidRarities] at hv
      · simp
    unfold traitScore
    simp only [gt_iff_lt, ht, hlen, if_true]
    rw [max_min_eq_specClamp, harmonicSum_validTraits, validTraits_length, hv]
    unfold specHarmonicMean
    rw [mul_comm]

theorem storedPercentage_eq_rarity (numberToString : ℚ → String)
    (collectionStats : Option CollectionStats) (trait : RawTrait) :
    storedPercentage numberToString collectionStats trait
      = rarity collectionStats (traitType trait) (value numberToString trait) := by
  rcases collectionStats with _ | st
  · rfl
  · rw [rarity_eq_statsEntry]
    rfl

theorem toFixed2_zero : toFixed2 0 = 0 := by
  unfold toFixed2
  have h : ⌊(0 : ℚ) * 100 + 1 / 2⌋ = 0 := by
    rw [Int.floor_eq_iff]
    constructor <;> norm_num
  rw [if_neg (lt_irrefl 0), h]
  norm_num

theorem processTrait_rarity_valid (numberToString : ℚ → String)
    (collectionStats : Option CollectionStats) (trait : RawTrait) :
    (processTrait numberToString collectionStats trait).rarity.bind
        (fun r => if 0 < r then some r else none)
      = ((storedPercentage numberToString collectionStats trait).map toFixed2).bind
          (fun r => if 0 < r then some r else none) := by
  rw [storedPercentage_eq_rarity]
  simp only [processTrait]
  rcases rarity collectionStats (traitType trait) (value numberToString trait) with _ | p
  · rfl
  · by_cases hp : p = 0
    · subst hp
      simp [toFixed2_zero]
    · simp [hp]

/-- Claim C13 (as stated, refuted): with the stats
`{Fur: {Gold: {count: 1, percentage: 0.004}}}` and the single raw trait
`{trait_type: "Fur", value: "Gold"}`, the percentage rounds to 0, the scorer sees the
rarity 0, finds no valid trait and gives no raw trait score, whereas the scoring
formula fed with the exact percentage 0.004 gives a score, whatever `log10` is. -/
theorem traitScore_uses_rounded_rarity :
    toFixed2 0.004 = 0 ∧
    ∀ (numberToString : ℚ → String) (log10 : ℚ → ℚ),
      (traitScore log10
        (processTraits numberToString
          (some ⟨[("Fur", ⟨[("Gold", { count := 1, percentage := 0.004 })]⟩)]⟩)
          [RawTrait.mk (some "Fur") none (JSValue.string "Gold")])).2 = none ∧
      specRawTraitScore log10
          ([RawTrait.mk (some "Fur") none (JSValue.string "Gold")].map
            (storedPercentage numberToString
              (some ⟨[("Fur", ⟨[("Gold", { count := 1, percentage := 0.004 })]⟩)]⟩))) ≠ none := by
  have hfix : toFixed2 0.004 = 0 := by
    unfold toFixed2
    have hf : ⌊(0.004 : ℚ) * 100 + 1 / 2⌋ = 0 := by
      rw [Int.floor_eq_iff]
      constructor <;> norm_num
    rw [if_neg (by norm_num), hf]
    norm_num
  refine ⟨hfix, ?_⟩
  intro numberToString log10
  have hne : (0.004 : ℚ) ≠ 0 := by norm_num
  have hpos : (0 : ℚ) < 0.004 := by norm_num
  constructor
  · simp [processTraits, processTrait, traitType, truthyString, value, JSValue.orElse,
      JSValue.truthy, JSValue.toStr, rarity, JSObject.get, JSObject.lookup, hfix, hne, traitScore,
      validTraits]
  · simp [storedPercentage, statsEntry, traitType, truthyString, value, JSValue.orElse,
      JSValue.truthy, JSValue.toStr, JSObject.get, JSObject.lookup, specRawTraitScore, hpos]

/-- Claim C13 (amended): the harmonic mean and the raw trait score are computed from
the 2-decimal rounded rarity values attached to the traits: for every item the score
equals the score obtained by feeding the stored percentages, each rounded to 2
decimal places, to the scoring formula. -/
theorem traitScore_of_rounded_percentages (log10 : ℚ → ℚ) (numberToString : ℚ → String)
    (collectionStats : Option CollectionStats) (rawTraits : List RawTrait) :
    (traitScore log10 (processTraits numberToString collectionStats rawTraits)).2
      = specRawTraitScore log10
          (rawTraits.map (fun t =>
            (storedPercentage numberToString collectionStats t).map toFixed2)) := by
  rw [traitScore_snd_eq_spec]
  unfold specRawTraitScore processTraits
  rw [List.map_map, List.filterMap_map, List.filterMap_map]
  have hcongr : (fun o : Option ℚ => o.bind (fun r => if 0 < r then some r else none))
        ∘ ((fun t : Trait => t.rarity) ∘ processTrait numberToString collectionStats)
      = (fun o : Option ℚ => o.bind (fun r => if 0 < r then some r else none))
        ∘ (fun t => (storedPercentage numberToString collectionStats t).map toFixed2) := by
    funext t
    exact processTrait_rarity_valid numberToString collectionStats t
  rw [hcongr]

/-- Claim C14 (as stated, refuted): for the raw trait `{name: "Hat", value: "Cap"}`,
whose trait type is missing, the processed trait has trait type "Hat", not
"Property". -/
theorem processTrait_name_fallback :
    (∀ (numberToString : ℚ → String) (collectionStats : Option CollectionStats),
      (processTrait numberToString collectionStats
        (RawTrait.mk none (some "Hat") (JSValue.string "Cap"))).trait_type = "Hat") ∧
    "Hat" ≠ "Property" := by
  constructor
  · intro numberToString collectionStats
    simp [processTrait, traitType, truthyString]
  · decide

/-- Claim C14 (amended): for every raw trait, the processed trait type is the given
trait type when one is given and is not the empty string; when it is missing or
empty, `getNFTMetadata` takes the trait's `name` when that is given and not empty, and
the literal "Property" otherwise; `getNFTsForOwner`, which does not look at `name`,
takes the given non-empty trait type and "Property" otherwise. -/
theorem processTrait_trait_type (numberToString : ℚ → String)
    (collectionStats : Option CollectionStats) (trait : RawTrait) :
    (∀ s, trait.trait_type = some s → s ≠ "" →
      (processTrait numberToString collectionStats trait).trait_type = s ∧
        ownedTraitType trait = s) ∧
    ((trait.trait_type = none ∨ trait.trait_type = some "") →
      ownedTraitType trait = "Property" ∧
      (∀ s, trait.name = some s → s ≠ "" →
        (processTrait numberToString collectionStats trait).trait_type = s) ∧
      ((trait.name = none ∨ trait.name = some "") →
        (processTrait numberToString collectionStats trait).trait_type = "Property")) := by
  refine ⟨?_, ?_⟩
  · intro s hs hne
    have htt : truthyString trait.trait_type = some s := by
      simp [truthyString, hs, hne]
    simp only [processTrait, traitType, ownedTraitType, htt, and_self]
  · intro ht
    have htt : truthyString trait.trait_type = none := by
      rcases ht with h | h <;> simp [truthyString, h]
    refine ⟨by simp only [ownedTraitType, htt], ?_, ?_⟩
    · intro s hs hne
      have hn : truthyString trait.name = some s := by
        simp [truthyString, hs, hne]
      simp only [processTrait, traitType, htt, hn]
    · intro hn
      have hnn : truthyString trait.name = none := by
        rcases hn with h | h <;> simp [truthyString, h]
      simp only [processTrait, traitType, htt, hnn]

/-- Claim C15 (the code at a raw value of 0 and of false): with the stats
`{Level: {"0": {count: 5, percentage: 50}}, Rare: {"false": {count: 5, percentage: 50}}}`
the raw traits `{trait_type: "Level", value: 0}` and `{trait_type: "Rare", value: false}`
are given the value string "" (not "0" and "false"), "" is the key looked up, and the
rarity is null although the stats hold an entry under "0" and under "false". -/
theorem processTrait_falsy_value_empty (numberToString : ℚ → String) :
    processTrait numberToString
        (some ⟨[("Level", ⟨[("0", { count := 5, percentage := 50 })]⟩),
                ("Rare", ⟨[("false", { count := 5, percentage := 50 })]⟩)]⟩)
        (RawTrait.mk (some "Level") none (JSValue.number 0))
      = { trait_type := "Level", value := "", rarity := none } ∧
    processTrait numberToString
        (some ⟨[("Level", ⟨[("0", { count := 5, percentage := 50 })]⟩),
                ("Rare", ⟨[("false", { count := 5, percentage := 50 })]⟩)]⟩)
        (RawTrait.mk (some "Rare") none (JSValue.bool false))
      = { trait_type := "Rare", value := "", rarity := none } ∧
    statsEntry (⟨[("Level", ⟨[("0", { count := 5, percentage := 50 })]⟩),
                  ("Rare", ⟨[("false", { count := 5, percentage := 50 })]⟩)]⟩ : CollectionStats)
        "Level" "0" = some { count := 5, percentage := 50 } ∧
    statsEntry (⟨[("Level", ⟨[("0", { count := 5, percentage := 50 })]⟩),
                  ("Rare", ⟨[("false", { count := 5, percentage := 50 })]⟩)]⟩ : CollectionStats)
        "Rare" "false" = some { count := 5, percentage := 50 } ∧
    (JSValue.bool false).toStr numberToString = "false" := by
  refine ⟨?_, ?_, ?_, ?_, rfl⟩
  · simp [processTrait, traitType, truthyString, value, JSValue.orElse, JSValue.truthy,
      JSValue.toStr, rarity, JSObject.get, JSObject.lookup]
  · simp [processTrait, traitType, truthyString, value, JSValue.orElse, JSValue.truthy,
      JSValue.toStr, rarity, JSObject.get, JSObject.lookup]
  · simp [statsEntry, JSObject.get, JSObject.lookup]
  · simp [statsEntry, JSObject.get, JSObject.lookup]


/-! ### Properties of the raw trait score -/

theorem traitScore_snd_cases (log10 : ℚ → ℚ) (traits : List Trait) :
    (traitScore log10 traits).2
      = if specValidRarities traits = [] then none
        else some (max 0 (min 100
          (85 - 35 * log10 (max 0.1 (specHarmonicMean (specValidRarities traits)))))) := by
  rw [traitScore_snd_eq_spec, specRawTraitScore, ← specValidRarities_eq_filterMap]
  rcases hv : specValidRarities traits with _ | ⟨r, rs⟩
  · simp
  · simp [max_min_eq_specClamp]

theorem traitScore_fst_of_snd (log10 : ℚ → ℚ) (traits : List Trait) (raw : ℚ)
    (h : (traitScore log10 traits).2 = some raw) : traitScore log10 traits = (true, some raw) := by
  unfold traitScore at h ⊢
  by_cases h1 : traits.length > 0
  · by_cases h2 : (validTraits traits).length > 0
    · simp only [h1, h2, if_true] at h ⊢
      simp only [Option.some.injEq] at h
      rw [h]
    · simp [h1, h2] at h
  · simp [h1] at h

theorem specValidRarities_ne_nil (traits : List Trait)
    (h : ∃ t ∈ traits, ∃ r, t.rarity = some r ∧ 0 < r) : specValidRarities traits ≠ [] := by
  intro hnil
  have hpos := validTraits_ne_nil traits h
  rw [validTraits_length, hnil] at hpos
  exact lt_irrefl _ hpos

theorem specValidRarities_pos (traits : List Trait) :
    ∀ r ∈ specValidRarities traits, 0 < r := by
  intro r hr
  unfold specValidRarities at hr
  rw [List.mem_filterMap] at hr
  obtain ⟨t, _, ht⟩ := hr
  rcases hq : t.rarity with _ | q
  · simp [hq] at ht
  · by_cases hpos : 0 < q
    · simp [hq, hpos] at ht
      rw [← ht]
      exact hpos
    · simp [hq, hpos] at ht

theorem sum_inv_pos (rs : List ℚ) (hne : rs ≠ []) (hpos : ∀ r ∈ rs, 0 < r) :
    0 < (rs.map (fun r => 1 / r)).sum := by
  induction rs with
  | nil => exact absurd rfl hne
  | cons r rest ih =>
    have hr : 0 < 1 / r := one_div_pos.mpr (hpos r (List.mem_cons_self _ _))
    rcases rest with _ | ⟨r2, rest2⟩
    · simpa using hr
    · have := ih (by simp) (fun x hx => hpos x (List.mem_cons_of_mem _ hx))
      simp only [List.map_cons, List.sum_cons] at this ⊢
      linarith

theorem sum_inv_antitone (va vb : List ℚ)
    (h : List.Forall₂ (fun ra rb => 0 < ra ∧ ra ≤ rb) va vb) :
    (vb.map (fun r => 1 / r)).sum ≤ (va.map (fun r => 1 / r)).sum := by
  induction h with
  | nil => simp
  | cons hab _ ih =>
    simp only [List.map_cons, List.sum_cons]
    have := one_div_le_one_div_of_le hab.1 hab.2
    linarith

theorem forall₂_right_pos (va vb : List ℚ)
    (h : List.Forall₂ (fun ra rb => 0 < ra ∧ ra ≤ rb) va vb) : ∀ r ∈ vb, 0 < r := by
  induction h with
  | nil => simp
  | cons hab _ ih =>
    intro r hr
    rcases List.mem_cons.mp hr with e | e
    · rw [e]
      exact lt_of_lt_of_le hab.1 hab.2
    · exact ih r e

theorem specHarmonicMean_mono (va vb : List ℚ)
    (h : List.Forall₂ (fun ra rb => 0 < ra ∧ ra ≤ rb) va vb) (hne : va ≠ []) :
    specHarmonicMean va ≤ specHarmonicMean vb := by
  have hlen := h.length_eq
  have hbne : vb ≠ [] := by
    intro hb
    rw [hb] at hlen
    exact hne (List.length_eq_zero.mp hlen)
  have hSb := sum_inv_pos vb hbne (forall₂_right_pos va vb h)
  have hle := sum_inv_antitone va vb h
  unfold specHarmonicMean
  rw [hlen]
  exact div_le_div_of_nonneg_left (Nat.cast_nonneg _) hSb hle

theorem specValid_bind (r : Option ℚ) (h : ¬ specValid r) :
    r.bind (fun q => if 0 < q then some q else none) = none := by
  rcases r with _ | q
  · rfl
  · by_cases hq : 0 < q
    · exact absurd ⟨q, rfl, hq⟩ h
    · simp [hq]

theorem specValidRarities_forall₂ (A B : List Trait)
    (h : List.Forall₂ (fun a b => (¬ specValid a.rarity ∧ ¬ specValid b.rarity) ∨
      ∃ ra rb, a.rarity = some ra ∧ b.rarity = some rb ∧ 0 < ra ∧ ra ≤ rb) A B) :
    List.Forall₂ (fun ra rb => 0 < ra ∧ ra ≤ rb) (specValidRarities A) (specValidRarities B) := by
  induction h with
  | nil => exact List.Forall₂.nil
  | cons hab _ ih =>
    rcases hab with ⟨ha, hb⟩ | ⟨ra, rb, ha, hb, hpos, hle⟩
    · have ea := specValid_bind _ ha
      have eb := specValid_bind _ hb
      simp only [specValidRarities, List.filterMap_cons, ea, eb] at ih ⊢
      exact ih
    · have hposb : 0 < rb := lt_of_lt_of_le hpos hle
      simp only [specValidRarities, List.filterMap_cons, ha, hb, Option.some_bind, hpos, hposb,
        if_true] at ih ⊢
      exact List.Forall₂.cons ⟨hpos, hle⟩ ih

theorem clamp_score_antitone (la lb : ℚ) (h : la ≤ lb) :
    max 0 (min 100 (85 - 35 * lb)) ≤ max 0 (min 100 (85 - 35 * la)) :=
  max_le_max le_rfl (min_le_min le_rfl (by linarith))

/-- Claim C16 (as stated, refuted): the lists A = `[{rarity: 0}, {rarity: 90}]` and
B = `[{rarity: 50}, {rarity: 90}]` have the same length and every rarity of A is at
most the corresponding rarity of B, yet the scorer leaves the rarity 0 out of A, so A
is scored on 90 alone (harmonic mean 90) and B on 50 and 90 (harmonic mean 450/7): for
every `log10` that, like the logarithm, has `log10(450/7) < log10(90)` with both values
between 1 and 2, the raw trait score of A is strictly below that of B. -/
theorem traitScore_not_monotone_with_zero_rarity :
    ((0 : ℚ) ≤ 50 ∧ (90 : ℚ) ≤ 90) ∧
    ∀ log10 : ℚ → ℚ, log10 (450 / 7) < log10 90 → 1 ≤ log10 (450 / 7) → log10 90 ≤ 2 →
      ∃ sa sb,
        (traitScore log10 [Trait.mk "Fur" "Gold" (some 0), Trait.mk "Hat" "Cap" (some 90)]).2
          = some sa ∧
        (traitScore log10 [Trait.mk "Fur" "Brown" (some 50), Trait.mk "Hat" "Cap" (some 90)]).2
          = some sb ∧
        sa < sb := by
  refine ⟨⟨by norm_num, le_refl _⟩, ?_⟩
  intro log10 hlt h1 h2
  have hvA : specValidRarities [Trait.mk "Fur" "Gold" (some 0), Trait.mk "Hat" "Cap" (some 90)]
      = [90] := by
    simp [specValidRarities]
  have hvB : specValidRarities [Trait.mk "Fur" "Brown" (some 50), Trait.mk "Hat" "Cap" (some 90)]
      = [50, 90] := by
    simp [specValidRarities]
  have hHA : specHarmonicMean [90] = 90 := by
    simp [specHarmonicMean]
  have hHB : specHarmonicMean [50, 90] = 450 / 7 := by
    simp [specHarmonicMean]
    norm_num
  have hmA : max (0.1 : ℚ) 90 = 90 := max_eq_right (by norm_num)
  have hmB : max (0.1 : ℚ) (450 / 7) = 450 / 7 := max_eq_right (by norm_num)
  refine ⟨85 - 35 * log10 90, 85 - 35 * log10 (450 / 7), ?_, ?_, by linarith⟩
  · rw [traitScore_snd_cases, hvA, hHA, hmA]
    simp only [List.cons_ne_nil, if_false, Option.some.injEq]
    rw [min_eq_right (by linarith), max_eq_right (by linarith)]
  · rw [traitScore_snd_cases, hvB, hHB, hmB]
    simp only [List.cons_ne_nil, if_false, Option.some.injEq]
    rw [min_eq_right (by linarith), max_eq_right (by linarith)]

/-- Claim C16 (amended): for any two trait lists A and B of the same length in which,
position by position, the two rarities are either both invalid (null or not above 0)
or both valid with the rarity of A at most the rarity of B, A has a raw trait score
exactly when B has one and then the score of A is at least the score of B (`log10`
being non-decreasing from 0.1 on). -/
theorem traitScore_antitone (log10 : ℚ → ℚ) (A B : List Trait)
    (hmono : ∀ x y, 0.1 ≤ x → x ≤ y → log10 x ≤ log10 y)
    (h : List.Forall₂ (fun a b => (¬ specValid a.rarity ∧ ¬ specValid b.rarity) ∨
      ∃ ra rb, a.rarity = some ra ∧ b.rarity = some rb ∧ 0 < ra ∧ ra ≤ rb) A B) :
    ((traitScore log10 A).2 = none ↔ (traitScore log10 B).2 = none) ∧
      ∀ sa sb, (traitScore log10 A).2 = some sa → (traitScore log10 B).2 = some sb →
        sb ≤ sa := by
  have hv := specValidRarities_forall₂ A B h
  have hlen := hv.length_eq
  rw [traitScore_snd_cases, traitScore_snd_cases]
  by_cases hA : specValidRarities A = []
  · have hB : specValidRarities B = [] := by
      rw [hA] at hlen
      exact List.length_eq_zero.mp hlen.symm
    simp [hA, hB]
  · have hB : specValidRarities B ≠ [] := by
      intro hB
      rw [hB] at hlen
      exact hA (List.length_eq_zero.mp hlen)
    simp only [hA, hB, if_false]
    refine ⟨by simp, ?_⟩
    intro sa sb hsa hsb
    simp only [Option.some.injEq] at hsa hsb
    rw [← hsa, ← hsb]
    apply clamp_score_antitone
    apply hmono
    · exact le_max_left _ _
    · exact max_le_max le_rfl (specHarmonicMean_mono _ _ hv hA)


/-- Claim C16 (amended) at A = `[{rarity: 2}, {rarity: null}]` and
B = `[{rarity: 4}, {rarity: 0}]`, with the identity in the place of `log10`. -/
theorem traitScore_antitone_witness :
    (∀ x y : ℚ, 0.1 ≤ x → x ≤ y → (fun z : ℚ => z) x ≤ (fun z : ℚ => z) y) ∧
    List.Forall₂ (fun a b => (¬ specValid a.rarity ∧ ¬ specValid b.rarity) ∨
        ∃ ra rb, a.rarity = some ra ∧ b.rarity = some rb ∧ 0 < ra ∧ ra ≤ rb)
      [Trait.mk "Fur" "Gold" (some 2), Trait.mk "Hat" "Cap" none]
      [Trait.mk "Fur" "Brown" (some 4), Trait.mk "Hat" "Top" (some 0)] ∧
    (((traitScore (fun z : ℚ => z)
          [Trait.mk "Fur" "Gold" (some 2), Trait.mk "Hat" "Cap" none]).2 = none ↔
        (traitScore (fun z : ℚ => z)
          [Trait.mk "Fur" "Brown" (some 4), Trait.mk "Hat" "Top" (some 0)]).2 = none) ∧
      ∀ sa sb,
        (traitScore (fun z : ℚ => z)
          [Trait.mk "Fur" "Gold" (some 2), Trait.mk "Hat" "Cap" none]).2 = some sa →
        (traitScore (fun z : ℚ => z)
          [Trait.mk "Fur" "Brown" (some 4), Trait.mk "Hat" "Top" (some 0)]).2 = some sb →
        sb ≤ sa) :=
  ⟨fun _ _ _ hxy => hxy,
    List.Forall₂.cons (Or.inr ⟨2, 4, rfl, rfl, by norm_num, by norm_num⟩)
      (List.Forall₂.cons (Or.inl ⟨by simp [specValid], by simp [specValid]⟩) List.Forall₂.nil),
    traitScore_antitone (fun z : ℚ => z)
      [Trait.mk "Fur" "Gold" (some 2), Trait.mk "Hat" "Cap" none]
      [Trait.mk "Fur" "Brown" (some 4), Trait.mk "Hat" "Top" (some 0)]
      (fun _ _ _ hxy => hxy)
      (List.Forall₂.cons (Or.inr ⟨2, 4, rfl, rfl, by norm_num, by norm_num⟩)
        (List.Forall₂.cons (Or.inl ⟨by simp [specValid], by simp [specValid]⟩)
          List.Forall₂.nil))⟩

/-! ### The floor price -/

theorem marketContext_of_lt_half (f : ℚ) (h : f < 0.5) : marketContext f = (0.45, 45) := by
  simp [marketContext, h]

theorem getNFTMetadata_congr_floor (log10 : ℚ → ℚ) (traits : List Trait) (f g : ℚ)
    (h : marketContext f = marketContext g) :
    getNFTMetadata log10 traits f = getNFTMetadata log10 traits g := by
  simp only [getNFTMetadata, scoreLocals, h]

/-- Claim C17 (as stated, refuted): a floor price that is a non-numeric string such as
"n/a" is truthy, so both `|| 0` leave it as it is; it converts to `NaN`, every test
`floorPriceETH < c` is false, and the scorer uses the top tier (multiplier 1, cap 100),
not the lowest one. -/
theorem marketContextOf_non_numeric_string :
    (∀ stringToNumber : String → Option ℚ, stringToNumber "n/a" = none →
      marketContextOf stringToNumber
        (floorPriceETH (getFloorPrice (Except.ok (JSValue.string "n/a")))) = (1.0, 100)) ∧
    ((1.0, 100) : ℚ × ℚ) ≠ (0.45, 45) := by
  constructor
  · intro stringToNumber hnan
    have hfloor : floorPriceETH (getFloorPrice (Except.ok (JSValue.string "n/a")))
        = JSValue.string "n/a" := by
      simp [floorPriceETH, getFloorPrice, JSValue.orElse, JSValue.truthy]
    rw [hfloor]
    simp [marketContextOf, JSValue.toNum, hnan]
  · intro h
    have h2 := congrArg Prod.snd h
    norm_num at h2

/-- Claim C17 (amended): for every negative floor price, for `NaN` and for a missing
value (`undefined` or `null`) the scorer behaves exactly as for floor price 0: the
floor price it works with is a number below 0.5, it uses the lowest tier (multiplier
0.45, cap 45) and reports what it reports at floor price 0; the same holds when the
upstream floor price request fails. No error is raised: the computation is total. -/
theorem floorPriceETH_lowest_tier (stringToNumber : String → Option ℚ) (v : JSValue)
    (h : (∃ f, v = JSValue.number f ∧ f < 0) ∨ v = JSValue.nan ∨ v = JSValue.undefined ∨
      v = JSValue.null) :
    (∃ q, floorPriceETH (getFloorPrice (Except.ok v)) = JSValue.number q ∧
      marketContextOf stringToNumber (floorPriceETH (getFloorPrice (Except.ok v)))
        = (0.45, 45) ∧
      marketContext q = (0.45, 45) ∧
      marketContext q = marketContext 0 ∧
      ∀ (log10 : ℚ → ℚ) (traits : List Trait),
        getNFTMetadata log10 traits q = getNFTMetadata log10 traits 0) ∧
    ∀ e, floorPriceETH (getFloorPrice (Except.error e)) = JSValue.number 0 := by
  have h0 : marketContext 0 = (0.45, 45) := marketContext_of_lt_half 0 (by norm_num)
  constructor
  · rcases h with ⟨f, hv, hf⟩ | hv | hv | hv
    · have hne : f ≠ 0 := ne_of_lt hf
      have hq : marketContext f = (0.45, 45) := marketContext_of_lt_half f (by linarith)
      refine ⟨f, ?_, ?_, hq, by rw [hq, h0], ?_⟩
      · simp [hv, floorPriceETH, getFloorPrice, JSValue.orElse, JSValue.truthy, hne]
      · simp [hv, floorPriceETH, getFloorPrice, JSValue.orElse, JSValue.truthy, hne,
          marketContextOf, JSValue.toNum, hq]
      · intro log10 traits
        exact getNFTMetadata_congr_floor log10 traits f 0 (by rw [hq, h0])
    all_goals
      refine ⟨0, ?_, ?_, h0, rfl, fun _ _ => rfl⟩
      · simp [hv, floorPriceETH, getFloorPrice, JSValue.orElse, JSValue.truthy]
      · simp [hv, floorPriceETH, getFloorPrice, JSValue.orElse, JSValue.truthy,
          marketContextOf, JSValue.toNum, h0]
  · intro e
    simp [floorPriceETH, getFloorPrice, JSValue.orElse, JSValue.truthy]

/-- Claim C17 (amended) at the floor price -2. -/
theorem floorPriceETH_lowest_tier_witness :
    ((∃ f, JSValue.number (-2) = JSValue.number f ∧ f < 0) ∨
      JSValue.number (-2) = JSValue.nan ∨ JSValue.number (-2) = JSValue.undefined ∨
      JSValue.number (-2) = JSValue.null) ∧
    ((∃ q, floorPriceETH (getFloorPrice (Except.ok (JSValue.number (-2)))) = JSValue.number q ∧
      marketContextOf (fun _ => none)
          (floorPriceETH (getFloorPrice (Except.ok (JSValue.number (-2))))) = (0.45, 45) ∧
      marketContext q = (0.45, 45) ∧
      marketContext q = marketContext 0 ∧
      ∀ (log10 : ℚ → ℚ) (traits : List Trait),
        getNFTMetadata log10 traits q = getNFTMetadata log10 traits 0) ∧
    ∀ e, floorPriceETH (getFloorPrice (Except.error e)) = JSValue.number 0) :=
  ⟨Or.inl ⟨-2, rfl, by norm_num⟩,
    floorPriceETH_lowest_tier (fun _ => none) (JSValue.number (-2))
      (Or.inl ⟨-2, rfl, by norm_num⟩)⟩

/-! ### The market step -/

theorem getNFTMetadata_rarityScore_of_raw (log10 : ℚ → ℚ) (traits : List Trait) (f raw : ℚ)
    (h : (traitScore log10 traits).2 = some raw) :
    (getNFTMetadata log10 traits f).rarityScore
      = some (min (marketContext f).2 (mathRound (raw * (marketContext f).1))) := by
  unfold getNFTMetadata
  simp only [scoreLocals_of_raw log10 traits f raw (traitScore_fst_of_snd log10 traits raw h),
    toNumber, mathRound_min_cap]

/-- Claim C18: for a raw trait score of exactly 80 the market step yields rarityScore
36 at floor price 0.49, 44 at floor price 0.5 and 80 at floor price 10; for a raw trait
score of exactly 100 it yields 85 at floor price 6 and 85 at floor price 9.99. -/
theorem market_step_boundaries (log10 : ℚ → ℚ) (A B : List Trait)
    (hA : (traitScore log10 A).2 = some 80) (hB : (traitScore log10 B).2 = some 100) :
    (getNFTMetadata log10 A 0.49).rarityScore = some 36 ∧
    (getNFTMetadata log10 A 0.5).rarityScore = some 44 ∧
    (getNFTMetadata log10 A 10).rarityScore = some 80 ∧
    (getNFTMetadata log10 B 6).rarityScore = some 85 ∧
    (getNFTMetadata log10 B 9.99).rarityScore = some 85 := by
  have c1 : marketContext 0.49 = (0.45, 45) := by
    simp only [marketContext]; norm_num
  have c2 : marketContext 0.5 = (0.55, 55) := by
    simp only [marketContext]; norm_num
  have c3 : marketContext 10 = (1.0, 100) := by
    simp only [marketContext]; norm_num
  have c4 : marketContext 6 = (0.85, 85) := by
    simp only [marketContext]; norm_num
  have c5 : marketContext 9.99 = (0.85, 85) := by
    simp only [marketContext]; norm_num
  have r36 : mathRound (80 * 0.45) = 36 := by
    have : (80 * 0.45 : ℚ) = ((36 : ℤ) : ℚ) := by norm_num
    rw [this, mathRound_intCast]; norm_num
  have r44 : mathRound (80 * 0.55) = 44 := by
    have : (80 * 0.55 : ℚ) = ((44 : ℤ) : ℚ) := by norm_num
    rw [this, mathRound_intCast]; norm_num
  have r80 : mathRound (80 * 1.0) = 80 := by
    have : (80 * 1.0 : ℚ) = ((80 : ℤ) : ℚ) := by norm_num
    rw [this, mathRound_intCast]; norm_num
  have r85 : mathRound (100 * 0.85) = 85 := by
    have : (100 * 0.85 : ℚ) = ((85 : ℤ) : ℚ) := by norm_num
    rw [this, mathRound_intCast]; norm_num
  refine ⟨?_, ?_, ?_, ?_, ?_⟩
  · rw [getNFTMetadata_rarityScore_of_raw log10 A 0.49 80 hA, c1]
    simp only [r36]; norm_num
  · rw [getNFTMetadata_rarityScore_of_raw log10 A 0.5 80 hA, c2]
    simp only [r44]; norm_num
  · rw [getNFTMetadata_rarityScore_of_raw log10 A 10 80 hA, c3]
    simp only [r80]; norm_num
  · rw [getNFTMetadata_rarityScore_of_raw log10 B 6 100 hB, c4]
    simp only [r85]; norm_num
  · rw [getNFTMetadata_rarityScore_of_raw log10 B 9.99 100 hB, c5]
    simp only [r85]; norm_num


theorem traitScore_two_steps :
    (traitScore (fun x : ℚ => if x < 1 then -3 / 7 else 1 / 7)
        [Trait.mk "Fur" "Gold" (some 2)]).2 = some 80 ∧
    (traitScore (fun x : ℚ => if x < 1 then -3 / 7 else 1 / 7)
        [Trait.mk "Fur" "Gold" (some (1 / 2))]).2 = some 100 := by
  constructor
  · rw [traitScore_snd_cases]
    have hv : specValidRarities [Trait.mk "Fur" "Gold" (some 2)] = [2] := by
      simp [specValidRarities]
    have hH : specHarmonicMean [2] = 2 := by
      simp [specHarmonicMean]
    have hm : max (0.1 : ℚ) 2 = 2 := max_eq_right (by norm_num)
    rw [hv, hH, hm]
    norm_num
  · rw [traitScore_snd_cases]
    have hv : specValidRarities [Trait.mk "Fur" "Gold" (some (1 / 2))] = [1 / 2] := by
      simp [specValidRarities]
    have hH : specHarmonicMean [1 / 2] = 1 / 2 := by
      simp [specHarmonicMean]
    have hm : max (0.1 : ℚ) (1 / 2) = 1 / 2 := max_eq_right (by norm_num)
    rw [hv, hH, hm]
    norm_num

/-- Claim C18 at the lists `[{rarity: 2}]` (raw trait score 80) and `[{rarity: 0.5}]`
(raw trait score 100), with a step function in the place of `log10`. -/
theorem market_step_boundaries_witness :
    ((traitScore (fun x : ℚ => if x < 1 then -3 / 7 else 1 / 7)
        [Trait.mk "Fur" "Gold" (some 2)]).2 = some 80 ∧
      (traitScore (fun x : ℚ => if x < 1 then -3 / 7 else 1 / 7)
        [Trait.mk "Fur" "Gold" (some (1 / 2))]).2 = some 100) ∧
    ((getNFTMetadata (fun x : ℚ => if x < 1 then -3 / 7 else 1 / 7)
        [Trait.mk "Fur" "Gold" (some 2)] 0.49).rarityScore = some 36 ∧
      (getNFTMetadata (fun x : ℚ => if x < 1 then -3 / 7 else 1 / 7)
        [Trait.mk "Fur" "Gold" (some 2)] 0.5).rarityScore = some 44 ∧
      (getNFTMetadata (fun x : ℚ => if x < 1 then -3 / 7 else 1 / 7)
        [Trait.mk "Fur" "Gold" (some 2)] 10).rarityScore = some 80 ∧
      (getNFTMetadata (fun x : ℚ => if x < 1 then -3 / 7 else 1 / 7)
        [Trait.mk "Fur" "Gold" (some (1 / 2))] 6).rarityScore = some 85 ∧
      (getNFTMetadata (fun x : ℚ => if x < 1 then -3 / 7 else 1 / 7)
        [Trait.mk "Fur" "Gold" (some (1 / 2))] 9.99).rarityScore = some 85) :=
  ⟨traitScore_two_steps,
    market_step_boundaries (fun x : ℚ => if x < 1 then -3 / 7 else 1 / 7)
      [Trait.mk "Fur" "Gold" (some 2)] [Trait.mk "Fur" "Gold" (some (1 / 2))]
      traitScore_two_steps.1 traitScore_two_steps.2⟩

theorem traitScore_range (log10 : ℚ → ℚ) (traits : List Trait) (raw : ℚ)
    (h : (traitScore log10 traits).2 = some raw) : 0 ≤ raw ∧ raw ≤ 100 := by
  rw [traitScore_snd_cases] at h
  split_ifs at h
  simp only [Option.some.injEq] at h
  rw [← h]
  exact ⟨le_max_left _ _, max_le (by norm_num) (min_le_left _ _)⟩

theorem marketContext_bounds (f : ℚ) :
    0 < (marketContext f).1 ∧ 0 ≤ (marketContext f).2 ∧ (marketContext f).2 ≤ 100 := by
  unfold marketContext
  split_ifs <;> norm_num

theorem mathRound_nonneg (x : ℚ) (h : 0 ≤ x) : 0 ≤ mathRound x := by
  unfold mathRound
  have : (0 : ℤ) ≤ ⌊x + 1 / 2⌋ := Int.floor_nonneg.mpr (by linarith)
  exact_mod_cast this

theorem min_cap_round_isInt (f x : ℚ) :
    ∃ n : ℤ, min (marketContext f).2 (mathRound x) = (n : ℚ) := by
  obtain ⟨c, hc⟩ := marketContext_cap_isInt f
  obtain ⟨m, hm⟩ := mathRound_isInt x
  rw [hc, hm]
  exact ⟨min c m, by push_cast; rfl⟩

/-- Claim C19: for every trait list with at least one valid trait and every floor
price, the reported rarityScore is an integer with 0 <= rarityScore <= cap, where cap
is the cap of the tier selected by the floor price; the cap is at most 100, so the
score lies in [0, 100] and never exceeds the cap of the tier. -/
theorem rarityScore_integer_within_cap (log10 : ℚ → ℚ) (traits : List Trait) (f : ℚ)
    (h : ∃ t ∈ traits, ∃ r, t.rarity = some r ∧ 0 < r) :
    ∃ n : ℤ, (getNFTMetadata log10 traits f).rarityScore = some (n : ℚ) ∧
      0 ≤ n ∧ (n : ℚ) ≤ (marketContext f).2 ∧ (marketContext f).2 ≤ 100 ∧ n ≤ 100 := by
  obtain ⟨raw, hraw⟩ := traitScore_of_valid log10 traits h
  have hsnd : (traitScore log10 traits).2 = some raw := by rw [hraw]
  obtain ⟨hr0, _⟩ := traitScore_range log10 traits raw hsnd
  obtain ⟨hmult, hcap0, hcap100⟩ := marketContext_bounds f
  obtain ⟨n, hn⟩ := min_cap_round_isInt f (raw * (marketContext f).1)
  have hround := mathRound_nonneg (raw * (marketContext f).1) (mul_nonneg hr0 (le_of_lt hmult))
  have hn0 : (0 : ℚ) ≤ (n : ℚ) := by
    rw [← hn]
    exact le_min hcap0 hround
  have hncap : (n : ℚ) ≤ (marketContext f).2 := by
    rw [← hn]
    exact min_le_left _ _
  refine ⟨n, ?_, by exact_mod_cast hn0, hncap, hcap100, ?_⟩
  · rw [getNFTMetadata_rarityScore_of_raw log10 traits f raw hsnd, hn]
  · have : (n : ℚ) ≤ 100 := le_trans hncap hcap100
    exact_mod_cast this

/-- Claim C19 at the trait list `[{rarity: 2}]` and floor price 3. -/
theorem rarityScore_integer_within_cap_witness :
    (∃ t ∈ [Trait.mk "Fur" "Gold" (some 2)], ∃ r, t.rarity = some r ∧ 0 < r) ∧
    ∃ n : ℤ,
      (getNFTMetadata (fun x => x - 1) [Trait.mk "Fur" "Gold" (some 2)] 3).rarityScore
        = some (n : ℚ) ∧
      0 ≤ n ∧ (n : ℚ) ≤ (marketContext 3).2 ∧ (marketContext 3).2 ≤ 100 ∧ n ≤ 100 :=
  ⟨⟨Trait.mk "Fur" "Gold" (some 2), by simp, 2, rfl, by norm_num⟩,
    rarityScore_integer_within_cap (fun x => x - 1) [Trait.mk "Fur" "Gold" (some 2)] 3
      ⟨Trait.mk "Fur" "Gold" (some 2), by simp, 2, rfl, by norm_num⟩⟩

/-- Claim C20: for every trait list whose valid rarities have harmonic mean at most
0.1, the raw trait score is exactly 100: the floor 0.1 inside the logarithm makes the
value before clamping `85 - 35 * log10(0.1) = 120`, and the clamp returns 100, however
close to zero the rarities are (`log10(0.1)` being -1). -/
theorem rawTraitScore_saturates (log10 : ℚ → ℚ) (traits : List Trait)
    (hlog : log10 0.1 = -1)
    (h : ∃ t ∈ traits, ∃ r, t.rarity = some r ∧ 0 < r)
    (hH : specHarmonicMean (specValidRarities traits) ≤ 0.1) :
    (traitScore log10 traits).2 = some 100 ∧
      85 - log10 (max 0.1 (specHarmonicMean (specValidRarities traits))) * 35 = 120 := by
  have hne := specValidRarities_ne_nil traits h
  have hmax : max 0.1 (specHarmonicMean (specValidRarities traits)) = 0.1 := max_eq_left hH
  constructor
  · rw [traitScore_snd_cases, if_neg hne, hmax, hlog]
    norm_num
  · rw [hmax, hlog]
    norm_num

/-- Claim C20 at the trait list `[{rarity: 0.05}]`, with `x - 1.1` in the place of
`log10`. -/
theorem rawTraitScore_saturates_witness :
    (fun x : ℚ => x - 11 / 10) 0.1 = -1 ∧
    (∃ t ∈ [Trait.mk "Fur" "Gold" (some 0.05)], ∃ r, t.rarity = some r ∧ 0 < r) ∧
    specHarmonicMean (specValidRarities [Trait.mk "Fur" "Gold" (some 0.05)]) ≤ 0.1 ∧
    ((traitScore (fun x : ℚ => x - 11 / 10) [Trait.mk "Fur" "Gold" (some 0.05)]).2 = some 100 ∧
      85 - (fun x : ℚ => x - 11 / 10)
          (max 0.1 (specHarmonicMean (specValidRarities [Trait.mk "Fur" "Gold" (some 0.05)])))
        * 35 = 120) :=
  ⟨by norm_num,
    ⟨Trait.mk "Fur" "Gold" (some 0.05), by simp, 0.05, rfl, by norm_num⟩,
    by
      have hv : specValidRarities [Trait.mk "Fur" "Gold" (some 0.05)] = [0.05] := by
        have hp : (0 : ℚ) < 0.05 := by norm_num
        simp [specValidRarities, hp]
      rw [hv]
      simp [specHarmonicMean]
      norm_num,
    rawTraitScore_saturates (fun x : ℚ => x - 11 / 10) [Trait.mk "Fur" "Gold" (some 0.05)]
      (by norm_num)
      ⟨Trait.mk "Fur" "Gold" (some 0.05), by simp, 0.05, rfl, by norm_num⟩
      (by
        have hv : specValidRarities [Trait.mk "Fur" "Gold" (some 0.05)] = [0.05] := by
          have hp : (0 : ℚ) < 0.05 := by norm_num
          simp [specValidRarities, hp]
        rw [hv]
        simp [specHarmonicMean]
        norm_num)⟩

/-! ### Safety of the score computation -/

theorem validTraits_rarity_pos (traits : List Trait) :
    ∀ t ∈ validTraits traits, ∃ r, t.rarity = some r ∧ 0 < r := by
  intro t ht
  unfold validTraits at ht
  rw [List.mem_filter] at ht
  rcases hr : t.rarity with _ | r
  · simp [hr] at ht
  · refine ⟨r, rfl, ?_⟩
    simpa [hr] using ht.2

theorem harmonicSum_pos (traits : List Trait) (h : 0 < (validTraits traits).length) :
    0 < harmonicSum (validTraits traits) := by
  rw [harmonicSum_validTraits]
  apply sum_inv_pos _ _ (specValidRarities_pos traits)
  intro hnil
  rw [validTraits_length, hnil] at h
  exact lt_irrefl _ h

theorem traitScore_eq_of_valid (log10 : ℚ → ℚ) (traits : List Trait) :
    traitScore log10 traits
      = if 0 < (validTraits traits).length then
          (true, some (max 0 (min 100 (85 - log10 (max 0.1
            (((validTraits traits).length : ℚ) / harmonicSum (validTraits traits))) * 35))))
        else (false, none) := by
  unfold traitScore
  by_cases ht : traits.length > 0
  · simp only [ht, if_true, gt_iff_lt]
  · have hnil : traits = [] := List.length_eq_zero.mp (Nat.eq_zero_of_not_pos ht)
    subst hnil
    simp [validTraits]

theorem getNFTMetadata_no_valid (log10 : ℚ → ℚ) (traits : List Trait) (f : ℚ)
    (h : (validTraits traits).length = 0) :
    traitScore log10 traits = (false, none) ∧
      scoreLocals log10 traits f
        = { hasValidTraitRarity := false, rawTraitScore := none, rarityScore := none,
            rarityPercentile := none } ∧
      getNFTMetadata log10 traits f = { rarityScore := some 0, rarityPercentile := none } := by
  have hts : traitScore log10 traits = (false, none) := by
    rw [traitScore_eq_of_valid, h]
    simp
  have hz : mathRound 0 = 0 := by simpa using mathRound_intCast 0
  refine ⟨hts, ?_, ?_⟩
  · simp [scoreLocals, hts]
  · simp [getNFTMetadata, scoreLocals, hts, toNumber, hz]

/-- Claim C21: for every trait list (with numeric or null rarities) and every numeric
floor price the score computation is total and raises no error: every division
`1 / rarity` is by a strictly positive rarity, the harmonic sum dividing the count is
strictly positive, the argument of `log10` is at least 0.1, the raw trait score is null
or a number in [0, 100], and the reported rarityScore is an integer. -/
theorem score_computation_safe (log10 : ℚ → ℚ) (traits : List Trait) (f : ℚ) :
    (∀ t ∈ validTraits traits, ∃ r, t.rarity = some r ∧ toNumber t.rarity = r ∧ 0 < r) ∧
    (0 < (validTraits traits).length → 0 < harmonicSum (validTraits traits)) ∧
    0.1 ≤ max 0.1 (((validTraits traits).length : ℚ) / harmonicSum (validTraits traits)) ∧
    ((traitScore log10 traits).2 = none ∨
      ∃ raw, (traitScore log10 traits).2 = some raw ∧ 0 ≤ raw ∧ raw ≤ 100) ∧
    ∃ n : ℤ, (getNFTMetadata log10 traits f).rarityScore = some (n : ℚ) := by
  refine ⟨?_, harmonicSum_pos traits, le_max_left _ _, ?_, ?_⟩
  · intro t ht
    obtain ⟨r, hr, hpos⟩ := validTraits_rarity_pos traits t ht
    exact ⟨r, hr, by rw [hr]; rfl, hpos⟩
  · rcases hs : (traitScore log10 traits).2 with _ | raw
    · exact Or.inl rfl
    · exact Or.inr ⟨raw, rfl, traitScore_range log10 traits raw hs⟩
  · rcases hs : (traitScore log10 traits).2 with _ | raw
    · have hlen : (validTraits traits).length = 0 := by
        by_contra hne
        have hpos : 0 < (validTraits traits).length := Nat.pos_of_ne_zero hne
        rw [traitScore_eq_of_valid, if_pos hpos] at hs
        simp at hs
      refine ⟨0, ?_⟩
      rw [(getNFTMetadata_no_valid log10 traits f hlen).2.2]
      simp
    · obtain ⟨n, hn⟩ := min_cap_round_isInt f (raw * (marketContext f).1)
      exact ⟨n, by rw [getNFTMetadata_rarityScore_of_raw log10 traits f raw hs, hn]⟩

/-! ### Empty summaries -/

/-- Claim C22: for an attribute summary that is empty (no trait types, or no summary
mapping at all) `getCollectionStats` does not fail and returns an empty stats object;
for a trait type with no values the stats hold an empty mapping for that trait type. -/
theorem getCollectionStats_empty_summary (upstream : String → Except String AttributeSummary)
    (w : World) (contractAddress : String) (summary : AttributeSummary)
    (hmiss : w.collectionStatsCache.get contractAddress = none)
    (hup : upstream contractAddress = Except.ok summary) :
    ((summary.summary = none ∨ summary.summary = some JSObject.empty) →
      (getCollectionStats upstream w contractAddress).1
        = Completion.returned (some JSObject.empty)) ∧
    (∀ s traitType, summary.summary = some s → s.get traitType = some JSObject.empty →
      ∃ st, (getCollectionStats upstream w contractAddress).1 = Completion.returned (some st) ∧
        st.get traitType = some JSObject.empty) := by
  rw [getCollectionStats_miss_ok upstream w contractAddress summary hmiss hup]
  constructor
  · intro h
    rcases h with h | h
    · simp [stats, h]
    · simp [stats, h, JSObject.forEachKey, JSObject.keys, JSObject.empty]
  · intro s traitType hs ht
    refine ⟨stats summary, rfl, ?_⟩
    unfold stats
    simp only [hs]
    rw [JSObject.get_forEachKey_set s
      (fun _ values => traitTypeStats values (totalSupply summary)), ht]
    simp [traitTypeStats, JSObject.forEachKey, JSObject.keys, JSObject.empty]

/-- Claim C22 at the summary `{summary: {Fur: {}}}` and an empty cache. -/
theorem getCollectionStats_empty_summary_witness :
    (World.mk JSObject.empty []).collectionStatsCache.get "0xabc" = none ∧
    (fun _ : String => (Except.ok (AttributeSummary.mk (some ⟨[("Fur", ⟨[]⟩)]⟩) none) :
        Except String AttributeSummary)) "0xabc"
      = Except.ok (AttributeSummary.mk (some ⟨[("Fur", ⟨[]⟩)]⟩) none) ∧
    (((AttributeSummary.mk (some ⟨[("Fur", ⟨[]⟩)]⟩) none).summary = none ∨
        (AttributeSummary.mk (some ⟨[("Fur", ⟨[]⟩)]⟩) none).summary = some JSObject.empty) →
      (getCollectionStats
          (fun _ => Except.ok (AttributeSummary.mk (some ⟨[("Fur", ⟨[]⟩)]⟩) none))
          (World.mk JSObject.empty []) "0xabc").1
        = Completion.returned (some JSObject.empty)) ∧
    (∀ s traitType, (AttributeSummary.mk (some ⟨[("Fur", ⟨[]⟩)]⟩) none).summary = some s →
      s.get traitType = some JSObject.empty →
      ∃ st, (getCollectionStats
          (fun _ => Except.ok (AttributeSummary.mk (some ⟨[("Fur", ⟨[]⟩)]⟩) none))
          (World.mk JSObject.empty []) "0xabc").1 = Completion.returned (some st) ∧
        st.get traitType = some JSObject.empty) :=
  ⟨rfl, rfl,
    getCollectionStats_empty_summary
      (fun _ => Except.ok (AttributeSummary.mk (some ⟨[("Fur", ⟨[]⟩)]⟩) none))
      (World.mk JSObject.empty []) "0xabc" (AttributeSummary.mk (some ⟨[("Fur", ⟨[]⟩)]⟩) none)
      rfl rfl⟩

/-! ### Summaries with counts of any type -/

theorem rawStatsEntry_rawStats (stringToNumber : String → Option ℚ)
    (summary : RawAttributeSummary) (traitType value : String) :
    rawStatsEntry (rawStats stringToNumber summary) traitType value
      = (rawSummaryCount summary traitType value).map
          (fun c => { count := c,
                      percentage := rawPercentage stringToNumber c (rawTotalSupply summary) }) := by
  unfold rawStatsEntry rawSummaryCount rawStats
  rcases hs : summary.summary with _ | s
  · simp [JSObject.get_empty]
  · simp only [Option.some_bind]
    rw [JSObject.get_forEachKey_set s
      (fun _ values => rawTraitTypeStats stringToNumber values (rawTotalSupply summary))]
    rcases ht : s.get traitType with _ | values
    · simp
    · simp only [Option.map_some', Option.some_bind]
      unfold rawTraitTypeStats
      rw [JSObject.get_forEachKey_set values
        (fun _ c => ({ count := c,
                       percentage := rawPercentage stringToNumber c (rawTotalSupply summary) } :
          RawTraitStat))]

theorem getCollectionStatsRaw_miss_ok (stringToNumber : String → Option ℚ)
    (upstream : String → Except String RawAttributeSummary) (w : RawWorld)
    (contractAddress : String) (summary : RawAttributeSummary)
    (hmiss : w.collectionStatsCache.get contractAddress = none)
    (hup : upstream contractAddress = Except.ok summary) :
    getCollectionStatsRaw stringToNumber upstream w contractAddress
      = (Completion.returned (some (rawStats stringToNumber summary)),
          { collectionStatsCache :=
              w.collectionStatsCache.set contractAddress (rawStats stringToNumber summary),
            upstreamCalls := w.upstreamCalls ++ [contractAddress] }) := by
  simp [getCollectionStatsRaw, hmiss, hup]

theorem getCollectionStatsRaw_returns (stringToNumber : String → Option ℚ)
    (upstream : String → Except String RawAttributeSummary) (w : RawWorld)
    (contractAddress : String) :
    ∃ r, (getCollectionStatsRaw stringToNumber upstream w contractAddress).1
      = Completion.returned r := by
  unfold getCollectionStatsRaw
  rcases w.collectionStatsCache.get contractAddress with _ | cachedStats
  · rcases upstream contractAddress with e | summary
    · exact ⟨_, rfl⟩
    · exact ⟨_, rfl⟩
  · exact ⟨_, rfl⟩

/-- Claim C23 (as stated, refuted): with the summary `{Fur: {Gold: "many"}}`, total
supply 100 and an empty cache, `getCollectionStats` raises no error: it returns the
stats `{Fur: {Gold: {count: "many", percentage: NaN}}}` built from the non-numeric
count, and caches them. -/
theorem getCollectionStatsRaw_non_numeric_count :
    (∀ stringToNumber : String → Option ℚ, stringToNumber "many" = none →
      getCollectionStatsRaw stringToNumber
          (fun _ => Except.ok (RawAttributeSummary.mk
            (some ⟨[("Fur", ⟨[("Gold", JSValue.string "many")]⟩)]⟩) (some 100)))
          (RawWorld.mk JSObject.empty []) "0xabc"
        = (Completion.returned
            (some ⟨[("Fur", ⟨[("Gold", { count := JSValue.string "many",
                                         percentage := none })]⟩)]⟩),
            RawWorld.mk
              ⟨[("0xabc", ⟨[("Fur", ⟨[("Gold", { count := JSValue.string "many",
                                                 percentage := none })]⟩)]⟩)]⟩
              ["0xabc"])) ∧
    (∀ stringToNumber : String → Option ℚ,
      ¬ ∃ message,
        (getCollectionStatsRaw stringToNumber
          (fun _ => Except.ok (RawAttributeSummary.mk
            (some ⟨[("Fur", ⟨[("Gold", JSValue.string "many")]⟩)]⟩) (some 100)))
          (RawWorld.mk JSObject.empty []) "0xabc").1 = Completion.threw message) := by
  constructor
  · intro stringToNumber hnan
    rw [getCollectionStatsRaw_miss_ok stringToNumber _ (RawWorld.mk JSObject.empty []) "0xabc"
      (RawAttributeSummary.mk (some ⟨[("Fur", ⟨[("Gold", JSValue.string "many")]⟩)]⟩) (some 100))
      rfl rfl]
    simp [rawStats, rawTraitTypeStats, rawPercentage, rawTotalSupply, JSValue.toNum, hnan,
      JSObject.forEachKey, JSObject.keys, JSObject.get, JSObject.lookup, JSObject.set,
      JSObject.assign, JSObject.empty]
  · intro stringToNumber
    rintro ⟨message, hm⟩
    obtain ⟨r, hr⟩ := getCollectionStatsRaw_returns stringToNumber
      (fun _ => Except.ok (RawAttributeSummary.mk
        (some ⟨[("Fur", ⟨[("Gold", JSValue.string "many")]⟩)]⟩) (some 100)))
      (RawWorld.mk JSObject.empty []) "0xabc"
    rw [hr] at hm
    exact Completion.noConfusion hm

/-- Claim C23 (amended): when some count of the raw attribute summary is non-numeric,
stats computation does not fail: `getCollectionStats` returns to the caller, and
caches, stats in which every pair of the summary has an entry holding its count as it
is and the percentage `count / totalSupply * 100`, which is `NaN` for a count that
does not convert to a number; no error is raised. -/
theorem getCollectionStatsRaw_builds_from_any_count (stringToNumber : String → Option ℚ)
    (upstream : String → Except String RawAttributeSummary) (w : RawWorld)
    (contractAddress : String) (summary : RawAttributeSummary)
    (hmiss : w.collectionStatsCache.get contractAddress = none)
    (hup : upstream contractAddress = Except.ok summary) :
    ∃ st,
      (getCollectionStatsRaw stringToNumber upstream w contractAddress).1
        = Completion.returned (some st) ∧
      (getCollectionStatsRaw stringToNumber upstream w contractAddress).2.collectionStatsCache.get
          contractAddress = some st ∧
      (∀ traitType value, rawStatsEntry st traitType value
        = (rawSummaryCount summary traitType value).map
            (fun c => { count := c,
                        percentage :=
                          rawPercentage stringToNumber c (rawTotalSupply summary) })) ∧
      (∀ traitType value c, rawSummaryCount summary traitType value = some c →
        c.toNum stringToNumber = none →
        rawStatsEntry st traitType value = some { count := c, percentage := none }) ∧
      (∀ traitType value q, rawSummaryCount summary traitType value = some (JSValue.number q) →
        rawStatsEntry st traitType value
          = some { count := JSValue.number q,
                   percentage := some (q / rawTotalSupply summary * 100) }) := by
  refine ⟨rawStats stringToNumber summary, ?_, ?_, ?_, ?_, ?_⟩
  · rw [getCollectionStatsRaw_miss_ok stringToNumber upstream w contractAddress summary hmiss hup]
  · rw [getCollectionStatsRaw_miss_ok stringToNumber upstream w contractAddress summary hmiss hup]
    exact JSObject.get_set_same _ _ _
  · exact rawStatsEntry_rawStats stringToNumber summary
  · intro traitType value c hc hnan
    rw [rawStatsEntry_rawStats, hc]
    simp [rawPercentage, hnan]
  · intro traitType value q hc
    rw [rawStatsEntry_rawStats, hc]
    simp [rawPercentage, JSValue.toNum]

/-- Claim C23 (amended) at the summary `{Fur: {Gold: "many"}}` with total supply 100 and
an empty cache. -/
theorem getCollectionStatsRaw_builds_from_any_count_witness :
    (RawWorld.mk JSObject.empty []).collectionStatsCache.get "0xabc" = none ∧
    (fun _ : String => (Except.ok (RawAttributeSummary.mk
        (some ⟨[("Fur", ⟨[("Gold", JSValue.string "many")]⟩)]⟩) (some 100)) :
        Except String RawAttributeSummary)) "0xabc"
      = Except.ok (RawAttributeSummary.mk
        (some ⟨[("Fur", ⟨[("Gold", JSValue.string "many")]⟩)]⟩) (some 100)) ∧
    ∃ st,
      (getCollectionStatsRaw (fun _ => none)
          (fun _ => Except.ok (RawAttributeSummary.mk
            (some ⟨[("Fur", ⟨[("Gold", JSValue.string "many")]⟩)]⟩) (some 100)))
          (RawWorld.mk JSObject.empty []) "0xabc").1 = Completion.returned (some st) ∧
      (getCollectionStatsRaw (fun _ => none)
          (fun _ => Except.ok (RawAttributeSummary.mk
            (some ⟨[("Fur", ⟨[("Gold", JSValue.string "many")]⟩)]⟩) (some 100)))
          (RawWorld.mk JSObject.empty []) "0xabc").2.collectionStatsCache.get "0xabc"
        = some st ∧
      (∀ traitType value, rawStatsEntry st traitType value
        = (rawSummaryCount (RawAttributeSummary.mk
            (some ⟨[("Fur", ⟨[("Gold", JSValue.string "many")]⟩)]⟩) (some 100))
            traitType value).map
            (fun c => { count := c,
                        percentage := rawPercentage (fun _ => none) c
                          (rawTotalSupply (RawAttributeSummary.mk
                            (some ⟨[("Fur", ⟨[("Gold", JSValue.string "many")]⟩)]⟩)
                            (some 100))) })) ∧
      (∀ traitType value c,
        rawSummaryCount (RawAttributeSummary.mk
            (some ⟨[("Fur", ⟨[("Gold", JSValue.string "many")]⟩)]⟩) (some 100))
            traitType value = some c →
        c.toNum (fun _ => none) = none →
        rawStatsEntry st traitType value = some { count := c, percentage := none }) ∧
      (∀ traitType value q,
        rawSummaryCount (RawAttributeSummary.mk
            (some ⟨[("Fur", ⟨[("Gold", JSValue.string "many")]⟩)]⟩) (some 100))
            traitType value = some (JSValue.number q) →
        rawStatsEntry st traitType value
          = some { count := JSValue.number q,
                   percentage := some (q / rawTotalSupply (RawAttributeSummary.mk
                      (some ⟨[("Fur", ⟨[("Gold", JSValue.string "many")]⟩)]⟩) (some 100))
                    * 100) }) :=
  ⟨rfl, rfl,
    getCollectionStatsRaw_builds_from_any_count (fun _ => none)
      (fun _ => Except.ok (RawAttributeSummary.mk
        (some ⟨[("Fur", ⟨[("Gold", JSValue.string "many")]⟩)]⟩) (some 100)))
      (RawWorld.mk JSObject.empty []) "0xabc"
      (RawAttributeSummary.mk (some ⟨[("Fur", ⟨[("Gold", JSValue.string "many")]⟩)]⟩) (some 100))
      rfl rfl⟩

/-! ### Purity of trait processing -/

theorem processTraitsRun_eq (numberToString : ℚ → String) (s : ResolverState)
    (rawTraits : List RawTrait) :
    processTraitsRun numberToString s rawTraits
      = (processTraits numberToString s.collectionStats rawTraits, s) := by
  induction rawTraits with
  | nil => rfl
  | cons trait rest ih =>
    simp only [processTraitsRun, processTraitStep, ih, processTraits, List.map_cons]

/-- Claim C24: trait rarity resolution is a pure, deterministic function of (raw trait
list, collection stats): a run leaves the state (stats cache, upstream record and
collection stats) as it was, a second run on the same inputs in the state the first
one left gives the identical trait list, and the output has one trait per input trait
in the same order, the trait at each position being computed from the raw trait at
that position and the collection stats alone. -/
theorem processTraitsRun_pure (numberToString : ℚ → String) (s : ResolverState)
    (rawTraits : List RawTrait) :
    (processTraitsRun numberToString s rawTraits).2 = s ∧
    (processTraitsRun numberToString (processTraitsRun numberToString s rawTraits).2 rawTraits).1
      = (processTraitsRun numberToString s rawTraits).1 ∧
    (∀ w : World,
      (processTraitsRun numberToString { world := w, collectionStats := s.collectionStats }
        rawTraits).1 = (processTraitsRun numberToString s rawTraits).1) ∧
    (processTraitsRun numberToString s rawTraits).1.length = rawTraits.length ∧
    ∀ i : Nat, (processTraitsRun numberToString s rawTraits).1[i]?
      = (rawTraits[i]?).map (processTrait numberToString s.collectionStats) := by
  refine ⟨?_, ?_, ?_, ?_, ?_⟩
  · rw [processTraitsRun_eq]
  · simp only [processTraitsRun_eq]
  · intro w
    simp only [processTraitsRun_eq]
  · simp only [processTraitsRun_eq, processTraits, List.length_map]
  · intro i
    simp only [processTraitsRun_eq, processTraits, List.getElem?_map]

/-! ### The cap and the floor price -/

theorem mathRound_mono (x y : ℚ) (h : x ≤ y) : mathRound x ≤ mathRound y := by
  unfold mathRound
  have : ⌊x + 1 / 2⌋ ≤ ⌊y + 1 / 2⌋ := Int.floor_mono (by linarith)
  exact_mod_cast this

theorem marketContext_cap_eq (f : ℚ) :
    (marketContext f).2 = 100 * (marketContext f).1 ∧ 0.45 ≤ (marketContext f).1 ∧
      45 ≤ (marketContext f).2 := by
  unfold marketContext
  split_ifs <;> norm_num

theorem marketContext_mult_le_one (f : ℚ) : (marketContext f).1 ≤ 1 := by
  unfold marketContext
  split_ifs <;> norm_num

theorem mathRound_times_le_cap (times : ℚ → ℚ → ℚ)
    (hacc : ∀ a b : ℚ, 0 ≤ a → a ≤ 100 → 0 ≤ b → b ≤ 1 → |times a b - a * b| < 1 / 2)
    (raw f : ℚ) (h0 : 0 ≤ raw) (h : raw ≤ 100) :
    mathRound (times raw (marketContext f).1) ≤ (marketContext f).2 := by
  obtain ⟨c, hc⟩ := marketContext_cap_isInt f
  obtain ⟨hmult, _, _⟩ := marketContext_bounds f
  have hle : raw * (marketContext f).1 ≤ (marketContext f).2 := by
    rw [(marketContext_cap_eq f).1]
    exact mul_le_mul_of_nonneg_right h (le_of_lt hmult)
  have hlt := (abs_lt.mp (hacc raw (marketContext f).1 h0 h (le_of_lt hmult)
    (marketContext_mult_le_one f))).2
  rw [hc] at hle ⊢
  unfold mathRound
  have hfl : ⌊times raw (marketContext f).1 + 1 / 2⌋ < c + 1 := by
    rw [Int.floor_lt]
    push_cast
    linarith
  have : ⌊times raw (marketContext f).1 + 1 / 2⌋ ≤ c := by omega
  exact_mod_cast this

/-- Claim C25: the cap in `min(cap, round(rawTraitScore * multiplier))` never binds. The
product is the one line 263 computes on doubles, `times`, of which only this is used:
on factors in [0, 100] and [0, 1] it is less than one half away from the exact product
(so `100 * 0.55 = 55.00000000000001` is covered). Then for every raw trait score in
[0, 100] and every floor price, `round(rawTraitScore * multiplier) <= cap` already and
the `min` returns the rounded product; so the reported rarityScore is
`round(rawTraitScore * multiplier)`, what the scorer without the `min` gives, for every
trait list and from every value in [0, 100] of the local `rawTraitScore`. -/
theorem cap_never_binds (times : ℚ → ℚ → ℚ)
    (hacc : ∀ a b : ℚ, 0 ≤ a → a ≤ 100 → 0 ≤ b → b ≤ 1 → |times a b - a * b| < 1 / 2) :
    (∀ raw f : ℚ, 0 ≤ raw → raw ≤ 100 →
      mathRound (times raw (marketContext f).1) ≤ (marketContext f).2 ∧
      min (marketContext f).2 (mathRound (times raw (marketContext f).1))
        = mathRound (times raw (marketContext f).1) ∧
      (rarityFields (marketStep times true (some raw) f).1
          (marketStep times true (some raw) f).2).rarityScore
        = some (mathRound (times raw (marketContext f).1))) ∧
    (∀ (log10 : ℚ → ℚ) (traits : List Trait) (f raw : ℚ),
      (traitScore log10 traits).2 = some raw →
      (getNFTMetadataWith times log10 traits f).rarityScore
        = some (mathRound (times raw (marketContext f).1))) := by
  constructor
  · intro raw f h0 h
    have hle := mathRound_times_le_cap times hacc raw f h0 h
    refine ⟨hle, min_eq_right hle, ?_⟩
    rw [rarityFields_marketStep, min_eq_right hle]
  · intro log10 traits f raw hraw
    obtain ⟨h0, h⟩ := traitScore_range log10 traits raw hraw
    rw [getNFTMetadataWith_of_raw times log10 traits f raw
        (traitScore_fst_of_snd log10 traits raw hraw),
      min_eq_right (mathRound_times_le_cap times hacc raw f h0 h)]

/-- Claim C25 at a product that is `55.00000000000001` at 100 and 0.55 and exact
elsewhere. -/
theorem cap_never_binds_witness :
    (∀ a b : ℚ, 0 ≤ a → a ≤ 100 → 0 ≤ b → b ≤ 1 →
      |(fun a b => if a = 100 ∧ b = 0.55 then (55.00000000000001 : ℚ) else a * b) a b - a * b|
        < 1 / 2) ∧
    ((∀ raw f : ℚ, 0 ≤ raw → raw ≤ 100 →
      mathRound ((fun a b => if a = 100 ∧ b = 0.55 then (55.00000000000001 : ℚ) else a * b)
          raw (marketContext f).1) ≤ (marketContext f).2 ∧
      min (marketContext f).2
          (mathRound ((fun a b => if a = 100 ∧ b = 0.55 then (55.00000000000001 : ℚ) else a * b)
            raw (marketContext f).1))
        = mathRound ((fun a b => if a = 100 ∧ b = 0.55 then (55.00000000000001 : ℚ) else a * b)
            raw (marketContext f).1) ∧
      (rarityFields
          (marketStep (fun a b => if a = 100 ∧ b = 0.55 then (55.00000000000001 : ℚ) else a * b)
            true (some raw) f).1
          (marketStep (fun a b => if a = 100 ∧ b = 0.55 then (55.00000000000001 : ℚ) else a * b)
            true (some raw) f).2).rarityScore
        = some (mathRound
            ((fun a b => if a = 100 ∧ b = 0.55 then (55.00000000000001 : ℚ) else a * b)
              raw (marketContext f).1))) ∧
    (∀ (log10 : ℚ → ℚ) (traits : List Trait) (f raw : ℚ),
      (traitScore log10 traits).2 = some raw →
      (getNFTMetadataWith
          (fun a b => if a = 100 ∧ b = 0.55 then (55.00000000000001 : ℚ) else a * b)
          log10 traits f).rarityScore
        = some (mathRound
            ((fun a b => if a = 100 ∧ b = 0.55 then (55.00000000000001 : ℚ) else a * b)
              raw (marketContext f).1)))) :=
  have hacc : ∀ a b : ℚ, 0 ≤ a → a ≤ 100 → 0 ≤ b → b ≤ 1 →
      |(fun a b => if a = 100 ∧ b = 0.55 then (55.00000000000001 : ℚ) else a * b) a b - a * b|
        < 1 / 2 := by
    intro a b _ _ _ _
    by_cases hab : a = 100 ∧ b = 0.55
    · obtain ⟨ha, hb⟩ := hab
      subst ha
      subst hb
      norm_num [abs_lt]
    · simp only [hab, if_false, sub_self, abs_zero]
      norm_num
  ⟨hacc,
    cap_never_binds
      (fun a b => if a = 100 ∧ b = 0.55 then (55.00000000000001 : ℚ) else a * b) hacc⟩

theorem marketContext_mono (f1 f2 : ℚ) (h : f1 ≤ f2) :
    (marketContext f1).1 ≤ (marketContext f2).1 ∧ (marketContext f1).2 ≤ (marketContext f2).2 := by
  unfold marketContext
  split_ifs <;> first
    | (exfalso; norm_num at *; linarith)
    | (constructor <;> norm_num)

/-- Claim C28: for every fixed trait list with at least one valid trait and any two
numeric floor prices `f1 <= f2`, the rarityScore at `f1` is at most the rarityScore at
`f2`. -/
theorem rarityScore_mono_floor (log10 : ℚ → ℚ) (traits : List Trait) (f1 f2 : ℚ)
    (h : ∃ t ∈ traits, ∃ r, t.rarity = some r ∧ 0 < r) (hle : f1 ≤ f2) :
    ∃ s1 s2, (getNFTMetadata log10 traits f1).rarityScore = some s1 ∧
      (getNFTMetadata log10 traits f2).rarityScore = some s2 ∧ s1 ≤ s2 := by
  obtain ⟨raw, hraw⟩ := traitScore_of_valid log10 traits h
  have hsnd : (traitScore log10 traits).2 = some raw := by rw [hraw]
  obtain ⟨hr0, _⟩ := traitScore_range log10 traits raw hsnd
  obtain ⟨hm, hc⟩ := marketContext_mono f1 f2 hle
  refine ⟨_, _, getNFTMetadata_rarityScore_of_raw log10 traits f1 raw hsnd,
    getNFTMetadata_rarityScore_of_raw log10 traits f2 raw hsnd, ?_⟩
  exact min_le_min hc (mathRound_mono _ _ (mul_le_mul_of_nonneg_left hm hr0))

/-- Claim C28 at the trait list `[{rarity: 2}]` and the floor prices 0.2 and 4. -/
theorem rarityScore_mono_floor_witness :
    (∃ t ∈ [Trait.mk "Fur" "Gold" (some 2)], ∃ r, t.rarity = some r ∧ 0 < r) ∧
    ((0.2 : ℚ) ≤ 4) ∧
    ∃ s1 s2,
      (getNFTMetadata (fun x => x - 1) [Trait.mk "Fur" "Gold" (some 2)] 0.2).rarityScore
        = some s1 ∧
      (getNFTMetadata (fun x => x - 1) [Trait.mk "Fur" "Gold" (some 2)] 4).rarityScore
        = some s2 ∧ s1 ≤ s2 :=
  ⟨⟨Trait.mk "Fur" "Gold" (some 2), by simp, 2, rfl, by norm_num⟩, by norm_num,
    rarityScore_mono_floor (fun x => x - 1) [Trait.mk "Fur" "Gold" (some 2)] 0.2 4
      ⟨Trait.mk "Fur" "Gold" (some 2), by simp, 2, rfl, by norm_num⟩ (by norm_num)⟩

/-! ### Dependence on the valid traits -/

theorem validTraits_append_invalid (l1 l2 : List Trait) (t : Trait)
    (ht : t.rarity = none ∨ ∃ r, t.rarity = some r ∧ r ≤ 0) :
    validTraits (l1 ++ t :: l2) = validTraits (l1 ++ l2) := by
  unfold validTraits
  rw [List.filter_append, List.filter_append]
  congr 1
  rw [List.filter_cons]
  rcases ht with h | ⟨r, h, hr⟩
  · simp [h]
  · have hnot : ¬ r > 0 := not_lt.mpr hr
    simp [h, hnot]

/-- Claim C29: the raw trait score and the rarityScore depend only on the valid
traits of the item and on the floor price: two trait lists with the same sub-list of
traits of non-null rarity above 0 give, at the same floor price, equal results; so
adding or removing a trait of null or non-positive rarity changes nothing. -/
theorem score_depends_on_valid_traits (log10 : ℚ → ℚ) (A B : List Trait) (f : ℚ)
    (h : validTraits A = validTraits B) :
    (traitScore log10 A = traitScore log10 B ∧
      scoreLocals log10 A f = scoreLocals log10 B f ∧
      getNFTMetadata log10 A f = getNFTMetadata log10 B f) ∧
    ∀ (l1 l2 : List Trait) (t : Trait),
      (t.rarity = none ∨ ∃ r, t.rarity = some r ∧ r ≤ 0) →
      traitScore log10 (l1 ++ t :: l2) = traitScore log10 (l1 ++ l2) ∧
      getNFTMetadata log10 (l1 ++ t :: l2) f = getNFTMetadata log10 (l1 ++ l2) f := by
  have key : ∀ X Y : List Trait, validTraits X = validTraits Y →
      traitScore log10 X = traitScore log10 Y := by
    intro X Y hXY
    rw [traitScore_eq_of_valid, traitScore_eq_of_valid, hXY]
  constructor
  · have hts := key A B h
    refine ⟨hts, ?_, ?_⟩
    · simp only [scoreLocals, hts]
    · simp only [getNFTMetadata, scoreLocals, hts]
  · intro l1 l2 t ht
    have hts := key _ _ (validTraits_append_invalid l1 l2 t ht)
    refine ⟨hts, ?_⟩
    simp only [getNFTMetadata, scoreLocals, hts]

/-- Claim C29 at the lists `[{rarity: null}, {rarity: 2}, {rarity: 0}]` and
`[{rarity: 2}]`. -/
theorem score_depends_on_valid_traits_witness :
    validTraits [Trait.mk "Hat" "Cap" none, Trait.mk "Fur" "Gold" (some 2),
        Trait.mk "Eyes" "Blue" (some 0)]
      = validTraits [Trait.mk "Fur" "Gold" (some 2)] ∧
    ((traitScore (fun x => x - 1) [Trait.mk "Hat" "Cap" none, Trait.mk "Fur" "Gold" (some 2),
          Trait.mk "Eyes" "Blue" (some 0)]
        = traitScore (fun x => x - 1) [Trait.mk "Fur" "Gold" (some 2)] ∧
      scoreLocals (fun x => x - 1) [Trait.mk "Hat" "Cap" none, Trait.mk "Fur" "Gold" (some 2),
          Trait.mk "Eyes" "Blue" (some 0)] 3
        = scoreLocals (fun x => x - 1) [Trait.mk "Fur" "Gold" (some 2)] 3 ∧
      getNFTMetadata (fun x => x - 1) [Trait.mk "Hat" "Cap" none, Trait.mk "Fur" "Gold" (some 2),
          Trait.mk "Eyes" "Blue" (some 0)] 3
        = getNFTMetadata (fun x => x - 1) [Trait.mk "Fur" "Gold" (some 2)] 3) ∧
    ∀ (l1 l2 : List Trait) (t : Trait),
      (t.rarity = none ∨ ∃ r, t.rarity = some r ∧ r ≤ 0) →
      traitScore (fun x => x - 1) (l1 ++ t :: l2) = traitScore (fun x => x - 1) (l1 ++ l2) ∧
      getNFTMetadata (fun x => x - 1) (l1 ++ t :: l2) 3
        = getNFTMetadata (fun x => x - 1) (l1 ++ l2) 3) :=
  ⟨by simp [validTraits],
    score_depends_on_valid_traits (fun x => x - 1)
      [Trait.mk "Hat" "Cap" none, Trait.mk "Fur" "Gold" (some 2), Trait.mk "Eyes" "Blue" (some 0)]
      [Trait.mk "Fur" "Gold" (some 2)] 3 (by simp [validTraits])⟩

/-! ### Percentages that round to 0 -/

theorem toFixed2_small (p : ℚ) (h0 : 0 < p) (h1 : p < 0.005) : toFixed2 p = 0 := by
  unfold toFixed2
  have hf : ⌊p * 100 + 1 / 2⌋ = 0 := by
    rw [Int.floor_eq_iff]
    constructor
    · push_cast
      linarith
    · push_cast
      norm_num at h1 ⊢
      linarith
  rw [if_neg (not_lt.mpr (le_of_lt h0)), hf]
  norm_num

theorem processTrait_rarity_stored (numberToString : ℚ → String)
    (collectionStats : Option CollectionStats) (trait : RawTrait) :
    (processTrait numberToString collectionStats trait).rarity
      = match storedPercentage numberToString collectionStats trait with
        | none => none
        | some r => if r = 0 then none else some (toFixed2 r) := by
  rw [storedPercentage_eq_rarity]
  rfl

theorem validTraits_eq_nil (traits : List Trait)
    (h : ∀ t ∈ traits, t.rarity = none ∨ ∃ r, t.rarity = some r ∧ r ≤ 0) :
    validTraits traits = [] := by
  unfold validTraits
  rw [List.filter_eq_nil_iff]
  intro t ht
  rcases h t ht with hn | ⟨r, hr, hle⟩
  · simp [hn]
  · have hnot : ¬ r > 0 := not_lt.mpr hle
    simp [hr, hnot]

/-- Claim C26: for every trait whose stored percentage `p` satisfies `0 < p < 0.005`
the processed trait has rarity 0 after the rounding to 2 decimals, and the scorer then
treats it as invalid and leaves it out of the harmonic mean; an item whose only
measured traits are of this kind gets no score: the raw trait score, the rarityScore
computed by the scorer and the reported rarityPercentile are all null. -/
theorem processTrait_small_percentage (numberToString : ℚ → String)
    (collectionStats : Option CollectionStats) (trait : RawTrait) (p : ℚ)
    (hp : storedPercentage numberToString collectionStats trait = some p)
    (h0 : 0 < p) (h1 : p < 0.005) :
    (processTrait numberToString collectionStats trait).rarity = some 0 ∧
    (∀ traits : List Trait,
      processTrait numberToString collectionStats trait ∉ validTraits traits) ∧
    ∀ (log10 : ℚ → ℚ) (rawTraits : List RawTrait) (f : ℚ),
      (∀ t ∈ rawTraits, storedPercentage numberToString collectionStats t = none ∨
        ∃ q, storedPercentage numberToString collectionStats t = some q ∧ 0 < q ∧ q < 0.005) →
      (traitScore log10 (processTraits numberToString collectionStats rawTraits)).2 = none ∧
      (scoreLocals log10 (processTraits numberToString collectionStats rawTraits) f).rarityScore
        = none ∧
      (getNFTMetadata log10 (processTraits numberToString collectionStats rawTraits) f).rarityPercentile
        = none := by
  have hrar : (processTrait numberToString collectionStats trait).rarity = some 0 := by
    rw [processTrait_rarity_stored, hp]
    simp [ne_of_gt h0, toFixed2_small p h0 h1]
  refine ⟨hrar, ?_, ?_⟩
  · intro traits hmem
    obtain ⟨r, hr, hpos⟩ := validTraits_rarity_pos traits _ hmem
    rw [hrar] at hr
    simp only [Option.some.injEq] at hr
    rw [← hr] at hpos
    exact lt_irrefl _ hpos
  · intro log10 rawTraits f hall
    have hnil : validTraits (processTraits numberToString collectionStats rawTraits) = [] := by
      apply validTraits_eq_nil
      intro t ht
      unfold processTraits at ht
      rw [List.mem_map] at ht
      obtain ⟨raw, hraw, hrt⟩ := ht
      rw [← hrt, processTrait_rarity_stored]
      rcases hall raw hraw with hn | ⟨q, hq, hq0, hq1⟩
      · left
        simp [hn]
      · right
        refine ⟨0, ?_, le_refl _⟩
        simp [hq, ne_of_gt hq0, toFixed2_small q hq0 hq1]
    have hlen : (validTraits (processTraits numberToString collectionStats rawTraits)).length = 0 := by
      rw [hnil]
      rfl
    obtain ⟨hts, hloc, hget⟩ :=
      getNFTMetadata_no_valid log10 (processTraits numberToString collectionStats rawTraits) f hlen
    refine ⟨by rw [hts], by rw [hloc], by rw [hget]⟩

/-- Claim C26 at the stats `{Fur: {Gold: {count: 1, percentage: 0.004}}}` (count 1 in a
supply of 25000) and the raw trait `{trait_type: "Fur", value: "Gold"}`. -/
theorem processTrait_small_percentage_witness :
    storedPercentage (fun _ => "")
        (some ⟨[("Fur", ⟨[("Gold", { count := 1, percentage := 0.004 })]⟩)]⟩)
        (RawTrait.mk (some "Fur") none (JSValue.string "Gold")) = some 0.004 ∧
    ((0 : ℚ) < 0.004) ∧ ((0.004 : ℚ) < 0.005) ∧
    ((processTrait (fun _ => "")
        (some ⟨[("Fur", ⟨[("Gold", { count := 1, percentage := 0.004 })]⟩)]⟩)
        (RawTrait.mk (some "Fur") none (JSValue.string "Gold"))).rarity = some 0 ∧
    (∀ traits : List Trait,
      processTrait (fun _ => "")
        (some ⟨[("Fur", ⟨[("Gold", { count := 1, percentage := 0.004 })]⟩)]⟩)
        (RawTrait.mk (some "Fur") none (JSValue.string "Gold")) ∉ validTraits traits) ∧
    ∀ (log10 : ℚ → ℚ) (rawTraits : List RawTrait) (f : ℚ),
      (∀ t ∈ rawTraits,
        storedPercentage (fun _ => "")
          (some ⟨[("Fur", ⟨[("Gold", { count := 1, percentage := 0.004 })]⟩)]⟩) t = none ∨
        ∃ q, storedPercentage (fun _ => "")
          (some ⟨[("Fur", ⟨[("Gold", { count := 1, percentage := 0.004 })]⟩)]⟩) t = some q ∧
          0 < q ∧ q < 0.005) →
      (traitScore log10 (processTraits (fun _ => "")
        (some ⟨[("Fur", ⟨[("Gold", { count := 1, percentage := 0.004 })]⟩)]⟩) rawTraits)).2
        = none ∧
      (scoreLocals log10 (processTraits (fun _ => "")
        (some ⟨[("Fur", ⟨[("Gold", { count := 1, percentage := 0.004 })]⟩)]⟩) rawTraits)
        f).rarityScore = none ∧
      (getNFTMetadata log10 (processTraits (fun _ => "")
        (some ⟨[("Fur", ⟨[("Gold", { count := 1, percentage := 0.004 })]⟩)]⟩) rawTraits)
        f).rarityPercentile = none) :=
  ⟨by simp [storedPercentage, statsEntry, traitType, truthyString, value, JSValue.orElse,
      JSValue.truthy, JSValue.toStr, JSObject.get, JSObject.lookup],
    by norm_num, by norm_num,
    processTrait_small_percentage (fun _ => "")
      (some ⟨[("Fur", ⟨[("Gold", { count := 1, percentage := 0.004 })]⟩)]⟩)
      (RawTrait.mk (some "Fur") none (JSValue.string "Gold")) 0.004
      (by simp [storedPercentage, statsEntry, traitType, truthyString, value, JSValue.orElse,
        JSValue.truthy, JSValue.toStr, JSObject.get, JSObject.lookup])
      (by norm_num) (by norm_num)⟩

/-! ### A lower bound on the score -/

theorem sum_inv_ge (rs : List ℚ) (hpos : ∀ r ∈ rs, 0 < r) (hle : ∀ r ∈ rs, r ≤ 100) :
    (rs.length : ℚ) / 100 ≤ (rs.map (fun r => 1 / r)).sum := by
  induction rs with
  | nil => simp
  | cons r rest ih =>
    have hr0 := hpos r (List.mem_cons_self _ _)
    have hr1 := hle r (List.mem_cons_self _ _)
    have hinv : (1 : ℚ) / 100 ≤ 1 / r := one_div_le_one_div_of_le hr0 hr1
    have := ih (fun x hx => hpos x (List.mem_cons_of_mem _ hx))
      (fun x hx => hle x (List.mem_cons_of_mem _ hx))
    simp only [List.length_cons, List.map_cons, List.sum_cons]
    push_cast
    linarith

theorem specHarmonicMean_le_hundred (rs : List ℚ) (hne : rs ≠ [])
    (hpos : ∀ r ∈ rs, 0 < r) (hle : ∀ r ∈ rs, r ≤ 100) : specHarmonicMean rs ≤ 100 := by
  unfold specHarmonicMean
  have hS := sum_inv_pos rs hne hpos
  rw [div_le_iff₀ hS]
  have := sum_inv_ge rs hpos hle
  linarith

theorem specValidRarities_le (traits : List Trait)
    (hbound : ∀ t ∈ traits, ∀ r, t.rarity = some r → 0 < r → r ≤ 100) :
    ∀ r ∈ specValidRarities traits, r ≤ 100 := by
  intro r hr
  unfold specValidRarities at hr
  rw [List.mem_filterMap] at hr
  obtain ⟨t, ht, hbind⟩ := hr
  rcases hq : t.rarity with _ | q
  · simp [hq] at hbind
  · by_cases hpos : 0 < q
    · simp [hq, hpos] at hbind
      rw [← hbind]
      exact hbound t ht q hq hpos
    · simp [hq, hpos] at hbind

theorem mathRound_six_three_quarters : mathRound 6.75 = 7 := by
  unfold mathRound
  have hf : ⌊(6.75 : ℚ) + 1 / 2⌋ = 7 := by
    rw [Int.floor_eq_iff]
    constructor <;> norm_num
  rw [hf]
  norm_num

theorem validTraits_length_zero_of_no_valid (traits : List Trait)
    (h : ¬ ∃ t ∈ traits, ∃ r, t.rarity = some r ∧ 0 < r) : (validTraits traits).length = 0 := by
  have hnil : validTraits traits = [] := by
    apply validTraits_eq_nil
    intro t ht
    rcases hr : t.rarity with _ | r
    · exact Or.inl rfl
    · right
      refine ⟨r, rfl, ?_⟩
      by_contra hpos
      exact h ⟨t, ht, r, hr, not_le.mp hpos⟩
  rw [hnil]
  rfl

/-- Claim C27: for every trait list in which every valid rarity is at most 100: when
the list has a valid trait, the raw trait score is at least 15 and the reported
rarityScore is at least 7 at every floor price; so `getNFTMetadata` reports rarityScore
0 exactly when the item has no valid trait (`log10` being non-decreasing from 0.1 on
with `log10(100) = 2`). -/
theorem rarityScore_at_least_seven (log10 : ℚ → ℚ) (traits : List Trait) (f : ℚ)
    (hmono : ∀ x y, 0.1 ≤ x → x ≤ y → log10 x ≤ log10 y) (h100 : log10 100 = 2)
    (hbound : ∀ t ∈ traits, ∀ r, t.rarity = some r → 0 < r → r ≤ 100) :
    ((∃ t ∈ traits, ∃ r, t.rarity = some r ∧ 0 < r) →
      ∃ raw s, (traitScore log10 traits).2 = some raw ∧ 15 ≤ raw ∧
        (getNFTMetadata log10 traits f).rarityScore = some s ∧ 7 ≤ s) ∧
    ((getNFTMetadata log10 traits f).rarityScore = some 0 ↔
      ¬ ∃ t ∈ traits, ∃ r, t.rarity = some r ∧ 0 < r) := by
  have hvalid : (∃ t ∈ traits, ∃ r, t.rarity = some r ∧ 0 < r) →
      ∃ raw s, (traitScore log10 traits).2 = some raw ∧ 15 ≤ raw ∧
        (getNFTMetadata log10 traits f).rarityScore = some s ∧ 7 ≤ s := by
    intro h
    have hne := specValidRarities_ne_nil traits h
    have hH := specHarmonicMean_le_hundred (specValidRarities traits) hne
      (specValidRarities_pos traits) (specValidRarities_le traits hbound)
    have hlog : log10 (max 0.1 (specHarmonicMean (specValidRarities traits))) ≤ 2 := by
      rw [← h100]
      exact hmono _ _ (le_max_left _ _) (max_le (by norm_num) hH)
    have hraw : (traitScore log10 traits).2
        = some (max 0 (min 100
            (85 - 35 * log10 (max 0.1 (specHarmonicMean (specValidRarities traits)))))) := by
      rw [traitScore_snd_cases, if_neg hne]
    have h15 : (15 : ℚ) ≤ max 0 (min 100
        (85 - 35 * log10 (max 0.1 (specHarmonicMean (specValidRarities traits))))) :=
      le_max_of_le_right (le_min (by norm_num) (by linarith))
    refine ⟨_, _, hraw, h15, getNFTMetadata_rarityScore_of_raw log10 traits f _ hraw, ?_⟩
    obtain ⟨_, hmult, hcap⟩ := marketContext_cap_eq f
    apply le_min (by linarith)
    rw [← mathRound_six_three_quarters]
    apply mathRound_mono
    have h675 : (6.75 : ℚ) = 15 * 0.45 := by norm_num
    rw [h675]
    exact mul_le_mul h15 hmult (by norm_num) (le_trans (by norm_num) h15)
  refine ⟨hvalid, ?_, ?_⟩
  · intro hzero hex
    obtain ⟨raw, s, _, _, hs, h7⟩ := hvalid hex
    rw [hs] at hzero
    simp only [Option.some.injEq] at hzero
    rw [hzero] at h7
    norm_num at h7
  · intro hno
    rw [(getNFTMetadata_no_valid log10 traits f
      (validTraits_length_zero_of_no_valid traits hno)).2.2]

/-- Claim C27 at the trait list `[{rarity: 2}, {rarity: null}]` and floor price 0.2, with
`x / 50` in the place of `log10`. -/
theorem rarityScore_at_least_seven_witness :
    (∀ x y : ℚ, 0.1 ≤ x → x ≤ y → (fun z : ℚ => z / 50) x ≤ (fun z : ℚ => z / 50) y) ∧
    (fun z : ℚ => z / 50) 100 = 2 ∧
    (∀ t ∈ [Trait.mk "Fur" "Gold" (some 2), Trait.mk "Hat" "Cap" none],
      ∀ r, t.rarity = some r → 0 < r → r ≤ 100) ∧
    (((∃ t ∈ [Trait.mk "Fur" "Gold" (some 2), Trait.mk "Hat" "Cap" none],
        ∃ r, t.rarity = some r ∧ 0 < r) →
      ∃ raw s,
        (traitScore (fun z : ℚ => z / 50)
          [Trait.mk "Fur" "Gold" (some 2), Trait.mk "Hat" "Cap" none]).2 = some raw ∧
        15 ≤ raw ∧
        (getNFTMetadata (fun z : ℚ => z / 50)
          [Trait.mk "Fur" "Gold" (some 2), Trait.mk "Hat" "Cap" none] 0.2).rarityScore = some s ∧
        7 ≤ s) ∧
    ((getNFTMetadata (fun z : ℚ => z / 50)
        [Trait.mk "Fur" "Gold" (some 2), Trait.mk "Hat" "Cap" none] 0.2).rarityScore = some 0 ↔
      ¬ ∃ t ∈ [Trait.mk "Fur" "Gold" (some 2), Trait.mk "Hat" "Cap" none],
        ∃ r, t.rarity = some r ∧ 0 < r)) :=
  ⟨fun x y _ hxy => by
      show x / 50 ≤ y / 50
      linarith,
    by norm_num,
    by
      intro t ht r hr _
      simp only [List.mem_cons, List.mem_singleton, List.not_mem_nil, or_false] at ht
      rcases ht with e | e
      · rw [e] at hr
        simp only [Option.some.injEq] at hr
        rw [← hr]
        norm_num
      · rw [e] at hr
        exact absurd hr (by simp),
    rarityScore_at_least_seven (fun z : ℚ => z / 50)
      [Trait.mk "Fur" "Gold" (some 2), Trait.mk "Hat" "Cap" none] 0.2
      (fun x y _ hxy => by
        show x / 50 ≤ y / 50
        linarith)
      (by norm_num)
      (by
        intro t ht r hr _
        simp only [List.mem_cons, List.mem_singleton, List.not_mem_nil, or_false] at ht
        rcases ht with e | e
        · rw [e] at hr
          simp only [Option.some.injEq] at hr
          rw [← hr]
          norm_num
        · rw [e] at hr
          exact absurd hr (by simp))⟩

end Alchemy
